import Mathlib

/-!
# jwt-exporter: claim extraction, metric materialisation and the poll cycle

A shallow embedding of `src/exporter.go`, `src/metrics.go` and the polling loop of
`src/checker.go`.

Conventions of the embedding.

* A Go call either returns or panics; `Outcome` records which.  A Go `(value, error)`
  pair is a Lean pair whose second component is an `Option` (`none` is `nil`).
* Go maps with string keys are association lists read with `List.lookup`.
* An `int64` is an `Int` kept in range by `wrap64` wherever Go's arithmetic wraps.
* A `float64` is the rational number it denotes; every floating-point operation rounds
  its exact result with `roundFloat64` (round to nearest, ties to even).
* The base64url and JSON decoders of the Go standard library, and the result of
  converting an out-of-range `float64` to `int64`, which Go leaves to the
  implementation, are parameters (`Codec`); the control flow of
  `github.com/golang-jwt/jwt/v5` and of package `time` around them is modelled
  explicitly.
* The Prometheus gauge vectors are association lists from label tuples to values.
-/

set_option autoImplicit false

namespace JwtExporter

/-! ## Go runtime -/

/-- Run-time panics that the exporter can raise. -/
inductive Panic where
  /-- The message "invalid memory address or nil pointer dereference". -/
  | nilDereference
  /-- The message "interface conversion: interface {} is T, not string". -/
  | interfaceConversion
  deriving DecidableEq, Repr

/-- Result of running a Go function: it returns a value or it panics. -/
inductive Outcome (α : Type) where
  | ret (a : α)
  | panic (p : Panic)
  deriving DecidableEq, Repr

/-- Sequencing of Go statements: a panic skips the rest. -/
def Outcome.bind {α β : Type} : Outcome α → (α → Outcome β) → Outcome β
  | .ret a, f => f a
  | .panic p, _ => .panic p

instance : Monad Outcome where
  pure := Outcome.ret
  bind := Outcome.bind

/-- Dereference of a Go pointer (field access through `p.f` or a nil interface method
call): panics on `nil`. -/
def deref {α : Type} : Option α → Outcome α
  | some a => .ret a
  | none => .panic .nilDereference

/-! ## JSON values as decoded by `encoding/json` into `interface{}` -/

/-- Dynamic values held in a `map[string]interface{}` after `json.Unmarshal`. -/
inductive Value where
  | null
  | bool (b : Bool)
  | number (f : ℚ)
  | string (s : String)
  | array (xs : List Value)
  | object (kv : List (String × Value))

/-- The unchecked type assertion `v.(string)` applied to a map read `m[key]`:
panics when the key is absent (the read yields `nil`) or holds a non-string. -/
def assertString : Option Value → Outcome String
  | some (.string s) => .ret s
  | _ => .panic .interfaceConversion

/-- The checked type assertion `s, ok := v.(string)`. -/
def asString? : Value → Option String
  | .string s => some s
  | _ => none

/-- The checked type assertion `a, ok := v.([]any)`. -/
def asArray? : Value → Option (List Value)
  | .array xs => some xs
  | _ => none

/-- The loop `for _, x := range xs { if s, ok := x.(string); ok { acc = append(acc, s) } }`. -/
def appendStrings (acc : List String) (xs : List Value) : List String :=
  xs.foldl (fun acc x => match asString? x with
    | some s => acc ++ [s]
    | none => acc) acc

/-! ## Parameters of the model -/

/-- What the model takes from the Go implementation as given: `DecodeSegment` (base64url
without padding) and `json.Unmarshal` into a string-keyed map, either of which may fail,
and `Int64OfFloat`, the result of the conversion `int64(f)` for an `f` whose integer
part does not fit 64 bits, which the Go specification leaves to the implementation. -/
structure Codec where
  DecodeSegment : String → Option String
  Unmarshal : String → Option (List (String × Value))
  Int64OfFloat : ℚ → Int

/-! ## Machine arithmetic -/

/-- Two's-complement wrap of an integer to the `int64` range. -/
def wrap64 (x : Int) : Int :=
  (x + 9223372036854775808) % 18446744073709551616 - 9223372036854775808

/-- Bit length minus one, by halving at most `fuel` times. -/
def log2Fuel : Nat → Nat → Nat
  | 0, _ => 0
  | fuel + 1, n => if n < 2 then 0 else log2Fuel fuel (n / 2) + 1

/-- The largest `k` with `2 ^ k ≤ n`, for `1 ≤ n < 2 ^ 1100`. -/
def log2 (n : Nat) : Nat := log2Fuel 1100 n

/-- The largest `e` with `2 ^ e ≤ a`, for a positive `a` whose numerator and denominator
are below `2 ^ 1100` (every `float64` is such a number). -/
def floorLog2 (a : ℚ) : Int :=
  let e0 : Int := (log2 a.num.natAbs : Int) - (log2 a.den : Int)
  if (2 : ℚ) ^ e0 ≤ a then e0 else e0 - 1

/-- Round a non-negative rational to the nearest integer, ties to the even one. -/
def roundHalfEven (m : ℚ) : Int :=
  if m - ⌊m⌋ < 1 / 2 then ⌊m⌋
  else if 1 / 2 < m - ⌊m⌋ then ⌊m⌋ + 1
  else if ⌊m⌋ % 2 = 0 then ⌊m⌋ else ⌊m⌋ + 1

/-- The `float64` nearest to `q` (53 significant bits, ties to even), in the range of
normal numbers, which holds every result the exporter computes. -/
def roundFloat64 (q : ℚ) : ℚ :=
  if q = 0 then 0
  else
    let ulp : ℚ := 2 ^ (floorLog2 |q| - 52)
    (if q < 0 then -1 else 1) * (roundHalfEven (|q| / ulp) : ℚ) * ulp

/-- The conversion `float64(x)` of an `int64`. -/
def float64OfInt (x : Int) : ℚ := roundFloat64 x

/-- The integer part that `math.Modf` returns (itself a `float64`). -/
def integerPart (f : ℚ) : Int := if 0 ≤ f then ⌊f⌋ else ⌈f⌉

/-- The conversion `int64(f)` of a `float64`: truncation toward zero when the result fits,
the implementation's choice otherwise. -/
def toInt64 (codec : Codec) (f : ℚ) : Int :=
  if -9223372036854775808 ≤ integerPart f ∧ integerPart f ≤ 9223372036854775807 then
    integerPart f
  else wrap64 (codec.Int64OfFloat f)

/-! ## Package `time` -/

/-- A `time.Duration`: a signed 64-bit count of nanoseconds. -/
abbrev Duration := Int

def maxDuration : Int := 9223372036854775807

def minDuration : Int := -9223372036854775808

/-- The method `d.Seconds()`: `float64(d / Second) + float64(d % Second) / 1e9`. -/
def Duration.Seconds (d : Duration) : ℚ :=
  roundFloat64 (float64OfInt (d.tdiv 1000000000) +
    roundFloat64 (float64OfInt (d.tmod 1000000000) / 1000000000))

/-- Seconds from January 1, year 1 to the Unix epoch. -/
def unixToInternal : Int := 62135596800

/-- A `time.Time` as its methods `sec()` and `nsec()` see it: `sec` is the `int64` count
of seconds since January 1, year 1, and `nsec` the nanoseconds within the second. -/
structure Time where
  sec : Int
  nsec : Int
  deriving DecidableEq, Repr

/-- The function `time.Unix(sec, nsec)`: brings `nsec` into `[0, 1e9)` and stores
`sec + unixToInternal`, all in `int64` arithmetic. -/
def time.Unix (sec nsec : Int) : Time :=
  if nsec < 0 ∨ nsec ≥ 1000000000 then
    if nsec - nsec.tdiv 1000000000 * 1000000000 < 0 then
      { sec := wrap64 (wrap64 (wrap64 (sec + nsec.tdiv 1000000000) - 1) + unixToInternal)
        nsec := nsec - nsec.tdiv 1000000000 * 1000000000 + 1000000000 }
    else
      { sec := wrap64 (wrap64 (sec + nsec.tdiv 1000000000) + unixToInternal)
        nsec := nsec - nsec.tdiv 1000000000 * 1000000000 }
  else { sec := wrap64 (sec + unixToInternal), nsec := nsec }

/-- The method `t.Unix()`: `t.sec() + internalToUnix` in `int64` arithmetic. -/
def Time.Unix (t : Time) : Int := wrap64 (t.sec - unixToInternal)

/-- The method `addSec`: adds `d` seconds, stopping at the ends of the `int64` range
when the sum overflows. -/
def addSec (sec d : Int) : Int :=
  if decide (wrap64 (sec + d) > sec) = decide (d > 0) then wrap64 (sec + d)
  else if d > 0 then 9223372036854775807
  else -9223372036854775807

/-- The method `t.Add(d)`. -/
def Time.Add (t : Time) (d : Duration) : Time :=
  if t.nsec + d.tmod 1000000000 ≥ 1000000000 then
    { sec := addSec t.sec (d.tdiv 1000000000 + 1)
      nsec := t.nsec + d.tmod 1000000000 - 1000000000 }
  else if t.nsec + d.tmod 1000000000 < 0 then
    { sec := addSec t.sec (d.tdiv 1000000000 - 1)
      nsec := t.nsec + d.tmod 1000000000 + 1000000000 }
  else { sec := addSec t.sec (d.tdiv 1000000000), nsec := t.nsec + d.tmod 1000000000 }

/-- The method `t.Equal(u)` on times without monotonic reading. -/
def Time.Equal (t u : Time) : Bool := t.sec = u.sec ∧ t.nsec = u.nsec

/-- The method `t.Before(u)` on times without monotonic reading. -/
def Time.Before (t u : Time) : Bool := t.sec < u.sec ∨ (t.sec = u.sec ∧ t.nsec < u.nsec)

/-- The method `t.Sub(u)` when one of the two has no monotonic reading: the difference
computed in `int64` arithmetic if adding it back to `u` gives `t`, and otherwise the
smallest or the largest `Duration`. -/
def Time.Sub (t u : Time) : Duration :=
  if (u.Add (wrap64 (wrap64 (wrap64 (t.sec - u.sec) * 1000000000) + (t.nsec - u.nsec)))).Equal
      t then
    wrap64 (wrap64 (wrap64 (t.sec - u.sec) * 1000000000) + (t.nsec - u.nsec))
  else if t.Before u then minDuration
  else maxDuration

/-- The remainder that `div(t, d)` returns when `d` is a whole number of seconds: it
works on the absolute value of `t` and corrects the result for a negative `t`. -/
def divRemainder (t : Time) (d : Duration) : Duration :=
  let sec := if t.sec < 0 then wrap64 (-t.sec) else t.sec
  let nsec := if t.sec < 0 then -t.nsec else t.nsec
  let sec1 := if t.sec < 0 ∧ nsec < 0 then wrap64 (sec - 1) else sec
  let nsec1 := if t.sec < 0 ∧ nsec < 0 then nsec + 1000000000 else nsec
  let r := wrap64 (wrap64 (sec1.tmod (d.tdiv 1000000000) * 1000000000) + nsec1)
  if t.sec < 0 ∧ r ≠ 0 then d - r else r

/-- The method `t.Truncate(d)` for a `d` that is a whole number of seconds. -/
def Time.Truncate (t : Time) (d : Duration) : Time :=
  if d ≤ 0 then t else t.Add (-divRemainder t d)

/-- The two readings of `time.Now()` that one call of `getMetricsFromJWT` makes:
`untilNow` inside `time.Until`, `sinceNow` inside `time.Since`. -/
structure Clock where
  untilNow : Time
  sinceNow : Time
  deriving DecidableEq, Repr

/-- The function `time.Until(t)` for a `t` without monotonic reading: `t.Sub(Now())`. -/
def Until (clock : Clock) (t : Time) : Duration := Time.Sub t clock.untilNow

/-- The function `time.Since(t)` for a `t` without monotonic reading: `Now().Sub(t)`. -/
def Since (clock : Clock) (t : Time) : Duration := Time.Sub clock.sinceNow t

/-! ## Package `github.com/golang-jwt/jwt/v5` -/

/-- Sentinel errors of the jwt package that can reach the exporter. -/
inductive JWTError where
  | ErrTokenMalformed
  | ErrTokenUnverifiable
  | ErrTokenSignatureInvalid
  | ErrInvalidType
  deriving DecidableEq, Repr

/-- The type `jwt.MapClaims`. -/
abbrev MapClaims := List (String × Value)

/-- The type `jwt.NumericDate`: an instant truncated to whole seconds. -/
structure NumericDate where
  Time : Time
  deriving DecidableEq, Repr

/-- The variable `jwt.TimePrecision`, left at its default of one second. -/
def TimePrecision : Duration := 1000000000

/-- The function `jwt.NewNumericDate`: the time truncated to `TimePrecision`. -/
def NewNumericDate (t : Time) : NumericDate := { Time := t.Truncate TimePrecision }

/-- The function `newNumericDateFromSeconds`: with `round, frac := math.Modf(f)`, the
date `NewNumericDate(time.Unix(int64(round), int64(frac*1e9)))`. -/
def newNumericDateFromSeconds (codec : Codec) (f : ℚ) : NumericDate :=
  NewNumericDate (time.Unix (toInt64 codec (integerPart f))
    (toInt64 codec (roundFloat64 ((f - integerPart f) * 1000000000))))

/-- The method `MapClaims.parseNumericDate`: an absent key and the number `0` both give
`(nil, nil)`; a number gives a date; any other value gives `ErrInvalidType`. -/
def parseNumericDate (codec : Codec) (m : MapClaims) (key : String) :
    Option NumericDate × Option JWTError :=
  match m.lookup key with
  | none => (none, none)
  | some (.number f) =>
    if f = 0 then (none, none) else (some (newNumericDateFromSeconds codec f), none)
  | some _ => (none, some .ErrInvalidType)

/-- The method `MapClaims.parseString`: an absent key gives `("", nil)`; a string gives
itself; any other value gives `ErrInvalidType`. -/
def parseString (m : MapClaims) (key : String) : String × Option JWTError :=
  match m.lookup key with
  | none => ("", none)
  | some (.string s) => (s, none)
  | some _ => ("", some .ErrInvalidType)

def GetExpirationTime (codec : Codec) (m : MapClaims) :
    Option NumericDate × Option JWTError :=
  parseNumericDate codec m "exp"

def GetIssuedAt (codec : Codec) (m : MapClaims) : Option NumericDate × Option JWTError :=
  parseNumericDate codec m "iat"

def GetIssuer (m : MapClaims) : String × Option JWTError :=
  parseString m "iss"

/-- The type `jwt.Token`.  `Claims` is an interface value and is `nil` until the header
has been decoded; `Method` is the name of the signing method once it has been found. -/
structure Token where
  Raw : String
  Method : Option String
  Header : List (String × Value)
  Claims : Option MapClaims
  Valid : Bool

/-- Auxiliary scan for `Split`: `cur` holds the current segment, reversed. -/
def splitAux : List Char → List Char → List String
  | [], cur => [String.mk cur.reverse]
  | c :: cs, cur =>
    if c = '.' then String.mk cur.reverse :: splitAux cs [] else splitAux cs (c :: cur)

/-- The call `strings.Split(s, ".")`. -/
def Split (s : String) : List String := splitAux s.toList []

/-- Names registered with `jwt.RegisterSigningMethod` by the package itself. -/
def signingMethods : List String :=
  ["HS256", "HS384", "HS512", "RS256", "RS384", "RS512", "ES256", "ES384", "ES512",
   "PS256", "PS384", "PS512", "EdDSA", "none"]

/-- The method `Parser.ParseUnverified` with `MapClaims{}` as claims: splits the token,
decodes header and claims, looks up the signing method.  On a wrong number of segments
the returned token is `nil`; on later failures the partially filled token is returned
with the error. -/
def ParseUnverified (codec : Codec) (tokenString : String) : Option Token × Option JWTError :=
  match Split tokenString with
  | [h, p, _] =>
    let token : Token := { Raw := tokenString, Method := none, Header := [], Claims := none,
                           Valid := false }
    match (codec.DecodeSegment h).bind codec.Unmarshal with
    | none => (some token, some .ErrTokenMalformed)
    | some header =>
      let token := { token with Header := header, Claims := some [] }
      match (codec.DecodeSegment p).bind codec.Unmarshal with
      | none => (some token, some .ErrTokenMalformed)
      | some claims =>
        let token := { token with Claims := some claims }
        match header.lookup "alg" with
        | some (.string method) =>
          if method ∈ signingMethods then (some { token with Method := some method }, none)
          else (some token, some .ErrTokenUnverifiable)
        | _ => (some token, some .ErrTokenUnverifiable)
  | _ => (none, some .ErrTokenMalformed)

/-- The call `jwt.Parse(tokenString, func(*jwt.Token) (any, error) { return nil, nil })`.
After `ParseUnverified` the signature segment is decoded and handed, with the nil key
that the callback returns, to the signing method's `Verify`; every registered method
rejects a nil key, so the token comes back with `ErrTokenSignatureInvalid` and `Valid`
unset. -/
def Parse (codec : Codec) (tokenString : String) : Option Token × Option JWTError :=
  match ParseUnverified codec tokenString with
  | (token, some err) => (token, some err)
  | (token, none) =>
    match ((Split tokenString).get? 2).bind codec.DecodeSegment with
    | none => (token, some .ErrTokenMalformed)
    | some _ => (token, some .ErrTokenSignatureInvalid)

/-! ## `src/metrics.go` -/

/-- Label values of one time series, in the order in which `metrics.go` declares the label
names of all four gauge vectors. -/
structure Labels where
  algorithm : String
  audience : String
  subject : String
  id : String
  scope : String
  issuer : String
  secret_key : String
  secret_name : String
  secret_namespace : String
  name : String
  email : String
  role : String
  deriving DecidableEq, Repr

/-- A `prometheus.GaugeVec`: the samples it currently holds, one per label tuple. -/
structure GaugeVec where
  samples : List (Labels × ℚ)
  deriving DecidableEq, Repr

/-- Overwrite the value stored under `lvs`, or add a new sample when there is none. -/
def setSample (samples : List (Labels × ℚ)) (lvs : Labels) (v : ℚ) : List (Labels × ℚ) :=
  if lvs ∈ samples.map Prod.fst then
    samples.map (fun sample => if sample.1 = lvs then (lvs, v) else sample)
  else samples ++ [(lvs, v)]

/-- The positional call `WithLabelValues(...)` with twelve values. -/
def WithLabelValues (algorithm audience subject id scope issuer secret_key secret_name
    secret_namespace name email role : String) : Labels :=
  { algorithm := algorithm, audience := audience, subject := subject, id := id,
    scope := scope, issuer := issuer, secret_key := secret_key, secret_name := secret_name,
    secret_namespace := secret_namespace, name := name, email := email, role := role }

/-- The chained call `g.WithLabelValues(lvs...).Set(v)`. -/
def GaugeVec.Set (g : GaugeVec) (lvs : Labels) (v : ℚ) : GaugeVec :=
  { samples := setSample g.samples lvs v }

/-- The method `GaugeVec.Reset`: deletes all samples. -/
def GaugeVec.Reset (_ : GaugeVec) : GaugeVec := { samples := [] }

/-- The label tuples that currently have a sample. -/
def GaugeVec.labels (g : GaugeVec) : List Labels := g.samples.map Prod.fst

/-- The package-level collectors of `metrics.go`. -/
structure Registry where
  ErrorTotal : Nat
  JWTExpirySeconds : GaugeVec
  JWTExpirationTimestamp : GaugeVec
  JWTIssuedAtTimestamp : GaugeVec
  JWTIssuedSinceSeconds : GaugeVec
  deriving DecidableEq, Repr

/-- The call `ErrorTotal.Inc()`. -/
def Registry.IncErrorTotal (reg : Registry) : Registry :=
  { reg with ErrorTotal := reg.ErrorTotal + 1 }

/-! ## `src/exporter.go` -/

structure JWTMetric where
  durationUntilExpiry : ℚ := 0
  durationSinceIssued : ℚ := 0
  expirationTimestamp : ℚ := 0
  issuedAtTimestamp : ℚ := 0
  issuer : String := ""
  algorithm : String := ""
  audience : String := ""
  subject : String := ""
  id : String := ""
  scopes : List String := []
  roles : List String := []
  name : String := ""
  email : String := ""
  deriving DecidableEq, Repr

/-- Errors built by `fmt.Errorf` in `getMetricsFromJWT`, with the wrapped cause. -/
inductive ExportError where
  /-- The text "failed to parse JWT: %w". -/
  | failedToParseJWT (cause : Option JWTError)
  /-- The text "failed to get expiration time from JWT: %w". -/
  | failedToGetExpirationTime (cause : JWTError)
  /-- The text "failed to get issued at time from JWT: %w". -/
  | failedToGetIssuedAtTime (cause : JWTError)
  deriving DecidableEq, Repr

/-- The `scope` block of `getMetricsFromJWT` (lines 71-84). -/
def readScopes (claims : MapClaims) (scopes : List String) : List String :=
  match claims.lookup "scope" with
  | none => scopes
  | some v =>
    match asString? v with
    | some scopesStr => scopes ++ [scopesStr]
    | none =>
      match asArray? v with
      | some scopesArray => appendStrings scopes scopesArray
      | none => scopes

/-- The `roles` block of `getMetricsFromJWT` (lines 86-94). -/
def readRoles (claims : MapClaims) (roles : List String) : List String :=
  match claims.lookup "roles" with
  | none => roles
  | some v =>
    match asArray? v with
    | some rolesSlice => appendStrings roles rolesSlice
    | none => roles

/-- The `name` and `email` blocks of `getMetricsFromJWT` (lines 96-106): the claim when
it is a string, the previous value otherwise. -/
def readOptionalString (claims : MapClaims) (key : String) (old : String) : String :=
  match claims.lookup key with
  | none => old
  | some v =>
    match asString? v with
    | some s => s
    | none => old

/-- Lines 47-107 of `getMetricsFromJWT`: everything after the parse, for a token whose
`Claims` field holds `claims`. -/
def extractClaims (codec : Codec) (clock : Clock) (token : Token) (claims : MapClaims)
    (metric : JWTMetric) :
    Outcome (JWTMetric × Option ExportError) :=
  let metric := { metric with issuer := (GetIssuer claims).1 }
  let metric :=
    if (GetIssuer claims).2.isSome then { metric with issuer := "unknown" } else metric
  match GetExpirationTime codec claims with
  | (_, some err) => .ret (metric, some (.failedToGetExpirationTime err))
  | (expirationDate, none) =>
    (deref expirationDate).bind fun expirationDate =>
    let metric := { metric with
      durationUntilExpiry := Duration.Seconds (Until clock expirationDate.Time) }
    let metric := { metric with
      expirationTimestamp := float64OfInt (Time.Unix expirationDate.Time) }
    match GetIssuedAt codec claims with
    | (_, some err) => .ret (metric, some (.failedToGetIssuedAtTime err))
    | (issuedAtDate, none) =>
      (deref issuedAtDate).bind fun issuedAtDate =>
      let metric := { metric with
        issuedAtTimestamp := float64OfInt (Time.Unix issuedAtDate.Time) }
      let metric := { metric with
        durationSinceIssued := Duration.Seconds (Since clock issuedAtDate.Time) }
      (assertString (token.Header.lookup "alg")).bind fun algorithm =>
      let metric := { metric with algorithm := algorithm }
      let metric := { metric with scopes := [] }
      (assertString (claims.lookup "jti")).bind fun id =>
      let metric := { metric with id := id }
      (assertString (claims.lookup "aud")).bind fun audience =>
      let metric := { metric with audience := audience }
      (assertString (claims.lookup "sub")).bind fun subject =>
      let metric := { metric with subject := subject }
      (assertString (claims.lookup "jti")).bind fun id =>
      let metric := { metric with id := id }
      let metric := { metric with scopes := readScopes claims metric.scopes }
      let metric := { metric with roles := readRoles claims metric.roles }
      let metric := { metric with name := readOptionalString claims "name" metric.name }
      let metric := { metric with email := readOptionalString claims "email" metric.email }
      .ret (metric, none)

/-- The method `Exporter.getMetricsFromJWT`.  The parse error is tested with
`err == nil` (line 43); on any other result the token is used without a nil check. -/
def getMetricsFromJWT (codec : Codec) (clock : Clock) (jwtData : String) :
    Outcome (JWTMetric × Option ExportError) :=
  let metric : JWTMetric := {}
  match Parse codec jwtData with
  | (_, none) => .ret (metric, some (.failedToParseJWT none))
  | (token, some _) =>
    (deref token).bind fun token =>
    (deref token.Claims).bind fun claims =>
    extractClaims codec clock token claims metric

/-- The four `Set` calls of one iteration of the inner loop of `ExportMetrics`. -/
def writeSamples (metric : JWTMetric) (keyName secretName secretNamespace : String)
    (scope role : String) (reg : Registry) : Registry :=
  let lvs := WithLabelValues metric.algorithm metric.audience metric.subject metric.id scope
    metric.issuer keyName secretName secretNamespace metric.name metric.email role
  { reg with
    JWTExpirySeconds := reg.JWTExpirySeconds.Set lvs metric.durationUntilExpiry
    JWTExpirationTimestamp := reg.JWTExpirationTimestamp.Set lvs metric.expirationTimestamp
    JWTIssuedAtTimestamp := reg.JWTIssuedAtTimestamp.Set lvs metric.issuedAtTimestamp
    JWTIssuedSinceSeconds := reg.JWTIssuedSinceSeconds.Set lvs metric.durationSinceIssued }

/-- Lines 116-123 of `ExportMetrics`: an empty `scopes` or `roles` becomes `[""]`. -/
def normalize (metric : JWTMetric) : JWTMetric :=
  let metric := if metric.scopes.length = 0 then { metric with scopes := [""] } else metric
  if metric.roles.length = 0 then { metric with roles := [""] } else metric

/-- The nested loops of `ExportMetrics` (lines 124-183). -/
def materialize (metric : JWTMetric) (keyName secretName secretNamespace : String)
    (reg : Registry) : Registry :=
  metric.scopes.foldl (fun reg scope =>
    metric.roles.foldl (fun reg role =>
      writeSamples metric keyName secretName secretNamespace scope role reg) reg) reg

/-- The method `Exporter.ExportMetrics`: the registry after the call and the returned
error. -/
def ExportMetrics (codec : Codec) (clock : Clock) (token keyName secretName
    secretNamespace : String) (reg : Registry) : Outcome (Registry × Option ExportError) :=
  match getMetricsFromJWT codec clock token with
  | .panic p => .panic p
  | .ret (_, some err) => .ret (reg, some err)
  | .ret (metric, none) =>
    .ret (materialize (normalize metric) keyName secretName secretNamespace reg, none)

/-- The method `Exporter.ResetMetrics`. -/
def ResetMetrics (reg : Registry) : Registry :=
  { reg with
    JWTExpirySeconds := reg.JWTExpirySeconds.Reset
    JWTExpirationTimestamp := reg.JWTExpirationTimestamp.Reset
    JWTIssuedAtTimestamp := reg.JWTIssuedAtTimestamp.Reset
    JWTIssuedSinceSeconds := reg.JWTIssuedSinceSeconds.Reset }

/-! ## `src/checker.go` -/

/-- The fields of `corev1.Secret` that the checker reads. -/
structure Secret where
  Name : String
  Namespace : String
  Annotations : List (String × String)
  Data : List (String × String)
  deriving DecidableEq, Repr

/-- The fields of `Checker` that one poll cycle reads. -/
structure Checker where
  labelSelectors : List String
  annotationKey : String

/-- Answers of the Kubernetes API during one cycle: `none` is a failed request.
`Secrets ns sel` is the list request in namespace `ns` with label selector `sel`
(the empty selector for `ListOptions{}`). -/
structure Cluster where
  Namespaces : Option (List String)
  Secrets : String → String → Option (List Secret)

/-- A Go map read `m[key]` on a `map[string]string`: the zero value when absent. -/
def mapGet (m : List (String × String)) (key : String) : String :=
  (m.lookup key).getD ""

/-- Calls made on the exporter, in the order in which they are made. -/
inductive Call where
  | ResetMetrics
  | ExportMetrics (token keyName secretName secretNamespace : String)
  deriving DecidableEq, Repr

/-- State of the process during a poll cycle: the collectors, the calls made on the
exporter so far (oldest first), and the panic that stopped the goroutine, if any. -/
structure CycleState where
  reg : Registry
  calls : List Call
  panicked : Option Panic
  deriving DecidableEq, Repr

/-- Lines 63-72 of `StartChecking`: request the namespaces; a failure is counted and
leaves no namespace to check (the client returns an empty list along with the error). -/
def listNamespaces (cluster : Cluster) (reg : Registry) : List String × Registry :=
  match cluster.Namespaces with
  | none => ([], reg.IncErrorTotal)
  | some items => (items, reg)

/-- Lines 75-97 of `StartChecking` for one namespace: one request per label selector,
or a single unfiltered request when no selector is configured; a failed request is
counted and skipped. -/
def listSecrets (p : Checker) (cluster : Cluster) (ns : String)
    (acc : List Secret × Registry) : List Secret × Registry :=
  if p.labelSelectors.length > 0 then
    p.labelSelectors.foldl (fun acc labelSelector =>
      match cluster.Secrets ns labelSelector with
      | none => (acc.1, acc.2.IncErrorTotal)
      | some items => (acc.1 ++ items, acc.2)) acc
  else
    match cluster.Secrets ns "" with
    | none => (acc.1, acc.2.IncErrorTotal)
    | some items => (acc.1 ++ items, acc.2)

/-- Lines 60-98 of `StartChecking`: the secrets to review in this cycle. -/
def discover (p : Checker) (cluster : Cluster) (reg : Registry) : List Secret × Registry :=
  let nss := listNamespaces cluster reg
  nss.1.foldl (fun acc ns => listSecrets p cluster ns acc) ([], nss.2)

/-- Lines 108-110 of `StartChecking`: the data key named by the annotation and the token
stored under it (both empty when missing). -/
def secretKeyOf (p : Checker) (secret : Secret) : String :=
  mapGet secret.Annotations p.annotationKey

def tokenOf (p : Checker) (secret : Secret) : String :=
  mapGet secret.Data (secretKeyOf p secret)

/-- The call that the loop makes for one secret. -/
def callOf (p : Checker) (secret : Secret) : Call :=
  .ExportMetrics (tokenOf p secret) (secretKeyOf p secret) secret.Name secret.Namespace

/-- Lines 100-131 of `StartChecking`: review the secrets in order.  Each secret comes
with the clock readings that its `ExportMetrics` call observes.  A returned error is
counted and the loop goes on; a panic is not recovered and ends the goroutine. -/
def reviewSecrets (p : Checker) (codec : Codec) :
    List (Secret × Clock) → Registry → List Call → CycleState
  | [], reg, calls => { reg := reg, calls := calls, panicked := none }
  | (secret, clock) :: rest, reg, calls =>
    match ExportMetrics codec clock (tokenOf p secret) (secretKeyOf p secret) secret.Name
        secret.Namespace reg with
    | .panic q => { reg := reg, calls := calls ++ [callOf p secret], panicked := some q }
    | .ret (reg, some _) =>
      reviewSecrets p codec rest reg.IncErrorTotal (calls ++ [callOf p secret])
    | .ret (reg, none) => reviewSecrets p codec rest reg (calls ++ [callOf p secret])

/-- Pair the secrets, in order, with the clock readings of their calls: the call for
the secret at position `i` observes `clocks (start + i)`. -/
def withClocks (clocks : Nat → Clock) : Nat → List Secret → List (Secret × Clock)
  | _, [] => []
  | start, secret :: rest => (secret, clocks start) :: withClocks clocks (start + 1) rest

/-- One iteration of the `for` loop of `StartChecking` (lines 55-131), up to the wait for
the next tick. -/
def pollCycle (p : Checker) (codec : Codec) (cluster : Cluster) (clocks : Nat → Clock)
    (reg : Registry) : CycleState :=
  let reg := ResetMetrics reg
  let found := discover p cluster reg
  reviewSecrets p codec (withClocks clocks 0 found.1) found.2 [Call.ResetMetrics]

/-- The four gauge vectors of a registry. -/
def Registry.gauges (reg : Registry) : List GaugeVec :=
  [reg.JWTExpirySeconds, reg.JWTExpirationTimestamp, reg.JWTIssuedAtTimestamp,
   reg.JWTIssuedSinceSeconds]

/-! ## Sample inputs

Real token segments with their decodings, used to run the model on concrete tokens. -/

def sampleHeader : String := "eyJhbGciOiJIUzI1NiIsInR5cCI6IkpXVCJ9"

def sampleSignature : String := "c2ln"

/-- Payload with every claim the exporter reads; `scope` and `roles` are arrays. -/
def payloadFull : String :=
  "eyJpc3MiOiJhdXRoIiwic3ViIjoiYWxpY2UiLCJhdWQiOiJhcGkiLCJqdGkiOiJpZC0xIiwiZXhwIjoxODAwMDAwMDAwLCJpYXQiOjE3MDAwMDAwMDAsInNjb3BlIjpbInJlYWQiLCJ3cml0ZSJdLCJyb2xlcyI6WyJhZG1pbiIsInZpZXdlciJdLCJuYW1lIjoiQWxpY2UiLCJlbWFpbCI6ImFsaWNlQGV4YW1wbGUuY29tIn0"

/-- Payload whose `scope` is the single string "read write". -/
def payloadScopeString : String :=
  "eyJpc3MiOiJhdXRoIiwic3ViIjoiYWxpY2UiLCJhdWQiOiJhcGkiLCJqdGkiOiJpZC0xIiwiZXhwIjoxODAwMDAwMDAwLCJpYXQiOjE3MDAwMDAwMDAsInNjb3BlIjoicmVhZCB3cml0ZSJ9"

/-- Payload without `iss`. -/
def payloadNoIss : String :=
  "eyJzdWIiOiJhbGljZSIsImF1ZCI6ImFwaSIsImp0aSI6ImlkLTEiLCJleHAiOjE4MDAwMDAwMDAsImlhdCI6MTcwMDAwMDAwMH0"

/-- Payload without `exp`. -/
def payloadNoExp : String :=
  "eyJpc3MiOiJhdXRoIiwic3ViIjoiYWxpY2UiLCJhdWQiOiJhcGkiLCJqdGkiOiJpZC0xIiwiaWF0IjoxNzAwMDAwMDAwfQ"

/-- Payload whose `aud` is the array ["api","web"]. -/
def payloadAudArray : String :=
  "eyJpc3MiOiJhdXRoIiwic3ViIjoiYWxpY2UiLCJhdWQiOlsiYXBpIiwid2ViIl0sImp0aSI6ImlkLTEiLCJleHAiOjE4MDAwMDAwMDAsImlhdCI6MTcwMDAwMDAwMH0"

/-- Payload whose `exp` is 253402300799 (the last second of the year 9999). -/
def payloadFarExp : String :=
  "eyJpc3MiOiJhdXRoIiwic3ViIjoiYWxpY2UiLCJhdWQiOiJhcGkiLCJqdGkiOiJpZC0xIiwiZXhwIjoyNTM0MDIzMDA3OTksImlhdCI6MTcwMDAwMDAwMH0"

def headerMap : List (String × Value) :=
  [("alg", .string "HS256"), ("typ", .string "JWT")]

/-- Payload whose `iat` is 0, the Unix epoch. -/
def payloadIatZero : String :=
  "eyJpc3MiOiJhdXRoIiwic3ViIjoiYWxpY2UiLCJhdWQiOiJhcGkiLCJqdGkiOiJpZC0xIiwiZXhwIjoxODAwMDAwMDAwLCJpYXQiOjB9"

def baseClaims : MapClaims :=
  [("sub", .string "alice"), ("aud", .string "api"), ("jti", .string "id-1")]

def claimsFull : MapClaims :=
  [("iss", .string "auth")] ++ baseClaims ++
    [("exp", .number 1800000000), ("iat", .number 1700000000),
     ("scope", .array [.string "read", .string "write"]),
     ("roles", .array [.string "admin", .string "viewer"]),
     ("name", .string "Alice"), ("email", .string "alice@example.com")]

def claimsScopeString : MapClaims :=
  [("iss", .string "auth")] ++ baseClaims ++
    [("exp", .number 1800000000), ("iat", .number 1700000000),
     ("scope", .string "read write")]

def claimsNoIss : MapClaims :=
  baseClaims ++ [("exp", .number 1800000000), ("iat", .number 1700000000)]

def claimsNoExp : MapClaims :=
  [("iss", .string "auth")] ++ baseClaims ++ [("iat", .number 1700000000)]

def claimsAudArray : MapClaims :=
  [("iss", .string "auth"), ("sub", .string "alice"),
   ("aud", .array [.string "api", .string "web"]), ("jti", .string "id-1"),
   ("exp", .number 1800000000), ("iat", .number 1700000000)]

def claimsFarExp : MapClaims :=
  [("iss", .string "auth")] ++ baseClaims ++
    [("exp", .number 253402300799), ("iat", .number 1700000000)]

def claimsIatZero : MapClaims :=
  [("iss", .string "auth")] ++ baseClaims ++ [("exp", .number 1800000000), ("iat", .number 0)]

/-- The restriction of the real decoders to the sample segments: `DecodeSegment` is the
identity on them (the JSON text is kept in its encoded form) and `Unmarshal` is the
composition of base64url decoding and JSON decoding.  An out-of-range conversion to
`int64` gives the smallest `int64`, as on amd64. -/
def sampleCodec : Codec where
  DecodeSegment := fun seg =>
    if seg ∈ [sampleHeader, sampleSignature, payloadFull, payloadScopeString, payloadNoIss,
        payloadNoExp, payloadAudArray, payloadFarExp, payloadIatZero] then some seg else none
  Unmarshal := fun text =>
    if text = sampleHeader then some headerMap
    else if text = payloadFull then some claimsFull
    else if text = payloadScopeString then some claimsScopeString
    else if text = payloadNoIss then some claimsNoIss
    else if text = payloadNoExp then some claimsNoExp
    else if text = payloadAudArray then some claimsAudArray
    else if text = payloadFarExp then some claimsFarExp
    else if text = payloadIatZero then some claimsIatZero
    else none
  Int64OfFloat := fun _ => -9223372036854775808

/-- The token made of the sample header, the given payload and the sample signature. -/
def sampleToken (payload : String) : String :=
  sampleHeader ++ "." ++ payload ++ "." ++ sampleSignature

/-- Clock readings at 2026-11-04T00:00:00Z, the second one a microsecond later. -/
def sampleClock : Clock :=
  { untilNow := time.Unix 1793750400 0, sinceNow := time.Unix 1793750400 1000 }

def emptyRegistry : Registry :=
  { ErrorTotal := 0, JWTExpirySeconds := { samples := [] },
    JWTExpirationTimestamp := { samples := [] }, JWTIssuedAtTimestamp := { samples := [] },
    JWTIssuedSinceSeconds := { samples := [] } }

/-- The record extracted from the sample token with every claim present, at the sample
clock. -/
def metricFull : JWTMetric :=
  { durationUntilExpiry := 6249600
    durationSinceIssued := 6291482843545667 / 67108864
    expirationTimestamp := 1800000000
    issuedAtTimestamp := 1700000000
    issuer := "auth"
    algorithm := "HS256"
    audience := "api"
    subject := "alice"
    id := "id-1"
    scopes := ["read", "write"]
    roles := ["admin", "viewer"]
    name := "Alice"
    email := "alice@example.com" }

/-- The default configuration of `main.go`. -/
def sampleChecker : Checker :=
  { labelSelectors := ["monitor.jwt.io/monitoring=true"]
    annotationKey := "jwt-exporter/secret-key" }

/-- A secret whose annotation names the data key `missing`, which it does not hold. -/
def brokenSecret : Secret :=
  { Name := "broken", Namespace := "default"
    Annotations := [("jwt-exporter/secret-key", "missing")]
    Data := [("token", sampleToken payloadFull)] }

/-- A secret whose annotation names the data key that holds the full sample token. -/
def validSecret : Secret :=
  { Name := "jwt", Namespace := "default"
    Annotations := [("jwt-exporter/secret-key", "token")]
    Data := [("token", sampleToken payloadFull)] }

/-- A cluster with the single namespace `default` in which the label selector finds the
given secrets. -/
def clusterWith (secrets : List Secret) : Cluster :=
  { Namespaces := some ["default"]
    Secrets := fun ns labelSelector =>
      if ns = "default" ∧ labelSelector = "monitor.jwt.io/monitoring=true" then some secrets
      else some [] }

/-! ## Auxiliary definitions for the statements -/

/-- The record that lines 47-107 build from claims in which `exp` and `iat` are the
non-zero numbers `exp` and `iat`, and `alg`, `sub`, `aud`, `jti` are the given strings. -/
def recordOf (codec : Codec) (clock : Clock) (claims : MapClaims) (alg sub aud jti : String)
    (exp iat : ℚ) : JWTMetric :=
  { durationUntilExpiry :=
      Duration.Seconds (Until clock (newNumericDateFromSeconds codec exp).Time)
    durationSinceIssued :=
      Duration.Seconds (Since clock (newNumericDateFromSeconds codec iat).Time)
    expirationTimestamp := float64OfInt (Time.Unix (newNumericDateFromSeconds codec exp).Time)
    issuedAtTimestamp := float64OfInt (Time.Unix (newNumericDateFromSeconds codec iat).Time)
    issuer := if (GetIssuer claims).2.isSome then "unknown" else (GetIssuer claims).1
    algorithm := alg
    audience := aud
    subject := sub
    id := jti
    scopes := readScopes claims []
    roles := readRoles claims []
    name := readOptionalString claims "name" ""
    email := readOptionalString claims "email" "" }

/-- The fields of a `Time` are in range: `sec` is an `int64` and `nsec` lies in
`[0, 1e9)`.  Every `Time` that Go builds is such. -/
def Time.wellFormed (t : Time) : Prop :=
  -9223372036854775808 ≤ t.sec ∧ t.sec ≤ 9223372036854775807 ∧ 0 ≤ t.nsec ∧
    t.nsec < 1000000000

instance (t : Time) : Decidable t.wellFormed := by
  unfold Time.wellFormed
  infer_instance

/-- The exact difference `t - u` of two instants, in nanoseconds. -/
def Time.nanosBetween (t u : Time) : Int :=
  (t.sec - u.sec) * 1000000000 + (t.nsec - u.nsec)

/-- The label tuple that `ExportMetrics` builds for one `(scope, role)` pair. -/
def tupleOf (metric : JWTMetric) (keyName secretName secretNamespace : String)
    (scope role : String) : Labels :=
  WithLabelValues metric.algorithm metric.audience metric.subject metric.id scope
    metric.issuer keyName secretName secretNamespace metric.name metric.email role

/-- The label tuples that the nested loops of `ExportMetrics` visit, in loop order. -/
def labelTuples (metric : JWTMetric) (keyName secretName secretNamespace : String) :
    List Labels :=
  metric.scopes.flatMap fun scope =>
    metric.roles.map fun role => tupleOf metric keyName secretName secretNamespace scope role

/-- Store `v` under each of the label tuples `lvs`, in order. -/
def setAll (samples : List (Labels × ℚ)) (lvs : List Labels) (v : ℚ) : List (Labels × ℚ) :=
  lvs.foldl (fun acc l => setSample acc l v) samples

/-- Store the four values of `metric` under each of the label tuples `lvs`, each value in
its own gauge vector. -/
def setAllGauges (metric : JWTMetric) (lvs : List Labels) (reg : Registry) : Registry :=
  { ErrorTotal := reg.ErrorTotal
    JWTExpirySeconds :=
      { samples := setAll reg.JWTExpirySeconds.samples lvs metric.durationUntilExpiry }
    JWTExpirationTimestamp :=
      { samples := setAll reg.JWTExpirationTimestamp.samples lvs metric.expirationTimestamp }
    JWTIssuedAtTimestamp :=
      { samples := setAll reg.JWTIssuedAtTimestamp.samples lvs metric.issuedAtTimestamp }
    JWTIssuedSinceSeconds :=
      { samples := setAll reg.JWTIssuedSinceSeconds.samples lvs metric.durationSinceIssued } }

/-- The four gauge vectors of `metrics.go`, as projections of the registry. -/
def gaugeSelectors : List (Registry → GaugeVec) :=
  [Registry.JWTExpirySeconds, Registry.JWTExpirationTimestamp, Registry.JWTIssuedAtTimestamp,
   Registry.JWTIssuedSinceSeconds]

/-- Two registries hold the same samples in each of the four gauge vectors (the error
counter may differ). -/
def Registry.sameGauges (r1 r2 : Registry) : Prop :=
  r1.JWTExpirySeconds = r2.JWTExpirySeconds ∧
  r1.JWTExpirationTimestamp = r2.JWTExpirationTimestamp ∧
  r1.JWTIssuedAtTimestamp = r2.JWTIssuedAtTimestamp ∧
  r1.JWTIssuedSinceSeconds = r2.JWTIssuedSinceSeconds

/-- Every label tuple in the gauge vectors of `reg` names one of the `secrets`. -/
def Registry.labelsFrom (p : Checker) (secrets : List Secret) (reg : Registry) : Prop :=
  ∀ sel ∈ gaugeSelectors, ∀ l ∈ (sel reg).labels,
    ∃ secret ∈ secrets, l.secret_name = secret.Name ∧
      l.secret_namespace = secret.Namespace ∧ l.secret_key = secretKeyOf p secret

/-- Whether the `ExportMetrics` call for this secret returns an error. -/
def returnsError (p : Checker) (codec : Codec) (item : Secret × Clock) : Bool :=
  match getMetricsFromJWT codec item.2 (tokenOf p item.1) with
  | .ret (_, some _) => true
  | _ => false

/-- Whether the `ExportMetrics` call for this secret panics. -/
def panics (p : Checker) (codec : Codec) (item : Secret × Clock) : Bool :=
  match getMetricsFromJWT codec item.2 (tokenOf p item.1) with
  | .panic _ => true
  | _ => false

/-! ## Parsing -/

/-- With a key callback that returns no key, `jwt.Parse` always reports an error. -/
theorem Parse_err_ne_none (codec : Codec) (tokenString : String) :
    (Parse codec tokenString).2 ≠ none := by
  unfold Parse
  split
  · simp
  · split <;> simp

/-- A token of three segments whose header and claims decode reaches the caller with
its header and claims filled in, together with some error. -/
theorem Parse_of_decoded (codec : Codec) (jwtData h p s : String)
    (header : List (String × Value)) (claims : MapClaims)
    (hsplit : Split jwtData = [h, p, s])
    (hheader : (codec.DecodeSegment h).bind codec.Unmarshal = some header)
    (hclaims : (codec.DecodeSegment p).bind codec.Unmarshal = some claims) :
    ∃ token err, Parse codec jwtData = (some token, some err) ∧
      token.Header = header ∧ token.Claims = some claims := by
  have hU : ∃ token err, ParseUnverified codec jwtData = (some token, err) ∧
      token.Header = header ∧ token.Claims = some claims := by
    unfold ParseUnverified
    simp only [hsplit, hheader, hclaims]
    split
    · split
      · exact ⟨_, _, rfl, rfl, rfl⟩
      · exact ⟨_, _, rfl, rfl, rfl⟩
    · exact ⟨_, _, rfl, rfl, rfl⟩
  obtain ⟨token, err, hP, hH, hC⟩ := hU
  unfold Parse
  rw [hP]
  cases err with
  | some e => exact ⟨token, e, rfl, hH, hC⟩
  | none =>
    simp only
    split
    · exact ⟨token, _, rfl, hH, hC⟩
    · exact ⟨token, _, rfl, hH, hC⟩

/-- After a successful decode of header and claims, `getMetricsFromJWT` is the claim
extraction of lines 47-107 run on the decoded token. -/
theorem getMetricsFromJWT_of_decoded (codec : Codec) (clock : Clock) (jwtData h p s : String)
    (header : List (String × Value)) (claims : MapClaims)
    (hsplit : Split jwtData = [h, p, s])
    (hheader : (codec.DecodeSegment h).bind codec.Unmarshal = some header)
    (hclaims : (codec.DecodeSegment p).bind codec.Unmarshal = some claims) :
    ∃ token : Token, token.Header = header ∧
      getMetricsFromJWT codec clock jwtData = extractClaims codec clock token claims {} := by
  obtain ⟨token, err, hP, hH, hC⟩ :=
    Parse_of_decoded codec jwtData h p s header claims hsplit hheader hclaims
  refine ⟨token, hH, ?_⟩
  unfold getMetricsFromJWT
  simp only [hP, deref, Outcome.bind, hC]

/-! ## Claim extraction -/

/-- The record built by lines 47-107 when the required claims are present: every field
is given in closed form. -/
theorem extractClaims_valid (codec : Codec) (clock : Clock) (token : Token) (claims : MapClaims)
    (alg sub aud jti : String) (exp iat : ℚ)
    (halg : token.Header.lookup "alg" = some (.string alg))
    (hexp : claims.lookup "exp" = some (.number exp)) (hexp0 : exp ≠ 0)
    (hiat : claims.lookup "iat" = some (.number iat)) (hiat0 : iat ≠ 0)
    (hsub : claims.lookup "sub" = some (.string sub))
    (haud : claims.lookup "aud" = some (.string aud))
    (hjti : claims.lookup "jti" = some (.string jti)) :
    extractClaims codec clock token claims {} =
      .ret (recordOf codec clock claims alg sub aud jti exp iat, none) := by
  unfold recordOf
  unfold extractClaims
  simp only [GetExpirationTime, GetIssuedAt, parseNumericDate, hexp, hiat, if_neg hexp0,
    if_neg hiat0, deref, Outcome.bind, halg, hjti, haud, hsub, assertString]
  by_cases hiss : (GetIssuer claims).2.isSome = true
  · simp only [if_pos hiss]
  · simp only [if_neg hiss]

/-- A token that decodes and carries the required claims is extracted without error,
and the record is `recordOf` of its claims. -/
theorem getMetricsFromJWT_valid_record (codec : Codec) (clock : Clock)
    (jwtData h p s : String) (header : List (String × Value)) (claims : MapClaims)
    (alg sub aud jti : String) (exp iat : ℚ)
    (hsplit : Split jwtData = [h, p, s])
    (hheader : (codec.DecodeSegment h).bind codec.Unmarshal = some header)
    (hclaims : (codec.DecodeSegment p).bind codec.Unmarshal = some claims)
    (halg : header.lookup "alg" = some (.string alg))
    (hexp : claims.lookup "exp" = some (.number exp)) (hexp0 : exp ≠ 0)
    (hiat : claims.lookup "iat" = some (.number iat)) (hiat0 : iat ≠ 0)
    (hsub : claims.lookup "sub" = some (.string sub))
    (haud : claims.lookup "aud" = some (.string aud))
    (hjti : claims.lookup "jti" = some (.string jti)) :
    getMetricsFromJWT codec clock jwtData =
      .ret (recordOf codec clock claims alg sub aud jti exp iat, none) := by
  obtain ⟨token, hH, hget⟩ :=
    getMetricsFromJWT_of_decoded codec clock jwtData h p s header claims hsplit hheader hclaims
  rw [hget, extractClaims_valid codec clock token claims alg sub aud jti exp iat (hH ▸ halg) hexp
    hexp0 hiat hiat0 hsub haud hjti]

/-- The issuer of an extracted record: the `iss` claim when it is a string, the empty
string when the claim is absent, and "unknown" when it holds anything else. -/
theorem recordOf_issuer (codec : Codec) (clock : Clock) (claims : MapClaims) (alg sub aud jti : String)
    (exp iat : ℚ) :
    (recordOf codec clock claims alg sub aud jti exp iat).issuer =
      match claims.lookup "iss" with
      | none => ""
      | some (.string iss) => iss
      | some _ => "unknown" := by
  unfold recordOf GetIssuer parseString
  cases hiss : claims.lookup "iss" with
  | none => rfl
  | some v => cases v <;> rfl

/-- Shape of a malformed result of `ParseUnverified`: no token at all, or a token
whose claims are nil or empty. -/
theorem ParseUnverified_malformed (codec : Codec) (jwtData : String)
    (hmal : (ParseUnverified codec jwtData).2 = some .ErrTokenMalformed) :
    ParseUnverified codec jwtData = (none, some .ErrTokenMalformed) ∨
    ∃ token : Token, ParseUnverified codec jwtData = (some token, some .ErrTokenMalformed) ∧
      (token.Claims = none ∨ token.Claims = some []) := by
  unfold ParseUnverified at hmal ⊢
  split
  · rename_i h p s hsplit
    simp only [hsplit] at hmal
    cases hh : (codec.DecodeSegment h).bind codec.Unmarshal with
    | none => exact Or.inr ⟨_, rfl, Or.inl rfl⟩
    | some header =>
      simp only [hh] at hmal ⊢
      cases hc : (codec.DecodeSegment p).bind codec.Unmarshal with
      | none => exact Or.inr ⟨_, rfl, Or.inr rfl⟩
      | some claims =>
        simp only [hc] at hmal
        split at hmal
        · split at hmal <;> simp at hmal
        · simp at hmal
  · exact Or.inl rfl

/-- Every token whose structural decode fails (wrong number of segments, undecodable
header, undecodable claims) makes `getMetricsFromJWT` panic: the guard of line 43 lets
the failed parse through and lines 47-56 dereference what is missing. -/
theorem getMetricsFromJWT_malformed (codec : Codec) (clock : Clock) (jwtData : String)
    (hmal : (ParseUnverified codec jwtData).2 = some .ErrTokenMalformed) :
    getMetricsFromJWT codec clock jwtData = .panic .nilDereference := by
  unfold getMetricsFromJWT Parse
  rcases ParseUnverified_malformed codec jwtData hmal with h | ⟨token, h, hC | hC⟩
  · simp [h, deref, Outcome.bind]
  · simp [h, hC, deref, Outcome.bind]
  · simp [h, hC, deref, Outcome.bind, extractClaims, GetIssuer, parseString,
      GetExpirationTime, parseNumericDate]

/-- An absent `exp` claim, or one equal to the number 0, makes `getMetricsFromJWT` panic
on `expirationDate.Time`: `GetExpirationTime` returns `(nil, nil)` for it. -/
theorem extractClaims_exp_nil (codec : Codec) (clock : Clock) (token : Token) (claims : MapClaims)
    (metric : JWTMetric)
    (hexp : claims.lookup "exp" = none ∨ claims.lookup "exp" = some (.number 0)) :
    extractClaims codec clock token claims metric = .panic .nilDereference := by
  unfold extractClaims
  rcases hexp with hexp | hexp <;>
    simp [GetExpirationTime, parseNumericDate, hexp, deref, Outcome.bind]

/-- An absent `iat` claim, or one equal to the number 0, makes `getMetricsFromJWT` panic
on `issuedAtDate.Time` once `exp` has been read. -/
theorem extractClaims_iat_nil (codec : Codec) (clock : Clock) (token : Token) (claims : MapClaims)
    (metric : JWTMetric) (exp : ℚ)
    (hexp : claims.lookup "exp" = some (.number exp)) (hexp0 : exp ≠ 0)
    (hiat : claims.lookup "iat" = none ∨ claims.lookup "iat" = some (.number 0)) :
    extractClaims codec clock token claims metric = .panic .nilDereference := by
  unfold extractClaims
  rcases hiat with hiat | hiat <;>
    simp [GetExpirationTime, GetIssuedAt, parseNumericDate, hexp, hexp0, hiat, deref,
      Outcome.bind]

/-- An `exp` claim that is present but not a number is reported as an error. -/
theorem extractClaims_exp_invalid (codec : Codec) (clock : Clock) (token : Token) (claims : MapClaims)
    (metric : JWTMetric) (v : Value)
    (hexp : claims.lookup "exp" = some v) (hnum : ∀ f, v ≠ .number f) :
    ∃ m, extractClaims codec clock token claims metric =
      .ret (m, some (.failedToGetExpirationTime .ErrInvalidType)) := by
  unfold extractClaims
  cases v with
  | number f => exact absurd rfl (hnum f)
  | null => simp only [GetExpirationTime, parseNumericDate, hexp]; exact ⟨_, rfl⟩
  | bool b => simp only [GetExpirationTime, parseNumericDate, hexp]; exact ⟨_, rfl⟩
  | string s => simp only [GetExpirationTime, parseNumericDate, hexp]; exact ⟨_, rfl⟩
  | array xs => simp only [GetExpirationTime, parseNumericDate, hexp]; exact ⟨_, rfl⟩
  | object kv => simp only [GetExpirationTime, parseNumericDate, hexp]; exact ⟨_, rfl⟩

/-- An `exp` claim that is present but not a number makes `ExportMetrics` return the
error of `getMetricsFromJWT` and leave the registry as it was. -/
theorem ExportMetrics_exp_invalid (codec : Codec) (clock : Clock) (jwtData h p s : String)
    (header : List (String × Value)) (claims : MapClaims) (v : Value)
    (keyName secretName secretNamespace : String) (reg : Registry)
    (hsplit : Split jwtData = [h, p, s])
    (hheader : (codec.DecodeSegment h).bind codec.Unmarshal = some header)
    (hclaims : (codec.DecodeSegment p).bind codec.Unmarshal = some claims)
    (hexp : claims.lookup "exp" = some v) (hnum : ∀ f, v ≠ .number f) :
    ExportMetrics codec clock jwtData keyName secretName secretNamespace reg =
      .ret (reg, some (.failedToGetExpirationTime .ErrInvalidType)) := by
  obtain ⟨token, _, hget⟩ :=
    getMetricsFromJWT_of_decoded codec clock jwtData h p s header claims hsplit hheader hclaims
  obtain ⟨m, hm⟩ := extractClaims_exp_invalid codec clock token claims {} v hexp hnum
  simp only [ExportMetrics, hget, hm]

/-- The unchecked assertion returns the string it is given. -/
theorem assertString_string (s : String) : assertString (some (.string s)) = .ret s := rfl

/-- The unchecked assertion panics exactly when the map read is not a string. -/
theorem assertString_panics (v : Option Value) (h : ∀ s, v ≠ some (.string s)) :
    assertString v = .panic .interfaceConversion := by
  unfold assertString
  split
  · rename_i s
    exact absurd rfl (h s)
  · rfl

/-- With `exp`, `iat` and `alg` in place, a `jti`, `aud` or `sub` claim that is absent or
not a string makes `getMetricsFromJWT` panic in the type assertion of lines 66-68. -/
theorem extractClaims_required_string_panics (codec : Codec) (clock : Clock) (token : Token)
    (claims : MapClaims) (metric : JWTMetric) (alg : String) (exp iat : ℚ)
    (halg : token.Header.lookup "alg" = some (.string alg))
    (hexp : claims.lookup "exp" = some (.number exp)) (hexp0 : exp ≠ 0)
    (hiat : claims.lookup "iat" = some (.number iat)) (hiat0 : iat ≠ 0)
    (hbad : (∀ s, claims.lookup "jti" ≠ some (.string s)) ∨
      (∀ s, claims.lookup "aud" ≠ some (.string s)) ∨
      (∀ s, claims.lookup "sub" ≠ some (.string s))) :
    extractClaims codec clock token claims metric = .panic .interfaceConversion := by
  unfold extractClaims
  simp only [GetExpirationTime, GetIssuedAt, parseNumericDate, hexp, hiat, if_neg hexp0,
    if_neg hiat0, deref, Outcome.bind, halg, assertString_string]
  rcases hbad with h | h | h
  · rw [assertString_panics _ h]
  · cases hj : assertString (claims.lookup "jti") with
    | panic q =>
      simp only
      unfold assertString at hj
      split at hj <;> simp_all
    | ret a => simp only [assertString_panics _ h]
  · cases hj : assertString (claims.lookup "jti") with
    | panic q =>
      simp only
      unfold assertString at hj
      split at hj <;> simp_all
    | ret a =>
      cases ha : assertString (claims.lookup "aud") with
      | panic q =>
        simp only
        unfold assertString at ha
        split at ha <;> simp_all
      | ret b => simp only [assertString_panics _ h]

/-! ## Sample tokens -/

set_option maxRecDepth 100000 in
theorem Split_sampleToken_payloadFull :
    Split (sampleToken payloadFull) = [sampleHeader, payloadFull, sampleSignature] := by
  decide

set_option maxRecDepth 100000 in
theorem Split_sampleToken_payloadNoIss :
    Split (sampleToken payloadNoIss) = [sampleHeader, payloadNoIss, sampleSignature] := by
  decide

set_option maxRecDepth 100000 in
theorem Split_sampleToken_payloadScopeString :
    Split (sampleToken payloadScopeString) =
      [sampleHeader, payloadScopeString, sampleSignature] := by
  decide

set_option maxRecDepth 100000 in
theorem Split_sampleToken_payloadFarExp :
    Split (sampleToken payloadFarExp) = [sampleHeader, payloadFarExp, sampleSignature] := by
  decide

/-! ## Claims about `getMetricsFromJWT` -/

set_option maxRecDepth 100000 in
/-- C1. A token that decodes structurally and carries a string `alg`, string `sub`, `aud`
and `jti`, a valid `exp` and the valid `iat` 0 (the Unix epoch) does not make
`getMetricsFromJWT` return without error: `GetIssuedAt` returns `(nil, nil)` for the
number 0 and the call panics with a nil dereference on `issuedAtDate.Time` (line 62). -/
theorem C1_getMetricsFromJWT_iat_zero_panics :
    getMetricsFromJWT sampleCodec sampleClock (sampleToken payloadIatZero) =
      .panic .nilDereference := by
  decide

set_option maxRecDepth 100000 in
/-- C2. A token without `exp` does not make `ExportMetrics` return an error: the call
panics with a nil dereference on `expirationDate.Time` (line 56). -/
theorem C2_ExportMetrics_absent_exp_panics (keyName secretName secretNamespace : String)
    (reg : Registry) :
    ExportMetrics sampleCodec sampleClock (sampleToken payloadNoExp) keyName secretName
      secretNamespace reg = .panic .nilDereference := by
  have h : getMetricsFromJWT sampleCodec sampleClock (sampleToken payloadNoExp) =
      .panic .nilDereference := by decide
  simp only [ExportMetrics, h]

set_option maxRecDepth 100000 in
/-- C3. A token whose `aud` claim is an array of strings does not make
`getMetricsFromJWT` return an error: the call panics in the type assertion of
line 67. -/
theorem C3_getMetricsFromJWT_aud_array_panics :
    getMetricsFromJWT sampleCodec sampleClock (sampleToken payloadAudArray) =
      .panic .interfaceConversion := by
  decide

/-- C4. The empty token string, which is what a secret without the annotation yields,
does not make `getMetricsFromJWT` return an error: whatever the decoders do, the call
panics with a nil dereference on `token.Claims` (line 47). -/
theorem C4_getMetricsFromJWT_empty_token_panics (codec : Codec) (clock : Clock) :
    getMetricsFromJWT codec clock "" = .panic .nilDereference :=
  getMetricsFromJWT_malformed codec clock "" rfl

set_option maxRecDepth 100000 in
/-- C5. A token without `iss` that is otherwise valid is extracted with the empty string
as issuer, not with "unknown". -/
theorem C5_getMetricsFromJWT_absent_iss_empty :
    ∃ metric, getMetricsFromJWT sampleCodec sampleClock (sampleToken payloadNoIss) =
        .ret (metric, none) ∧ metric.issuer = "" := by
  exact ⟨_, getMetricsFromJWT_valid_record sampleCodec sampleClock (sampleToken payloadNoIss)
    sampleHeader payloadNoIss sampleSignature headerMap claimsNoIss "HS256" "alice" "api"
    "id-1" 1800000000 1700000000 Split_sampleToken_payloadNoIss rfl rfl rfl rfl (by norm_num)
    rfl (by norm_num) rfl rfl rfl, rfl⟩

/-! ## Gauge vectors -/

theorem labels_setSample (xs : List (Labels × ℚ)) (l : Labels) (v : ℚ) :
    (setSample xs l v).map Prod.fst =
      if l ∈ xs.map Prod.fst then xs.map Prod.fst else xs.map Prod.fst ++ [l] := by
  unfold setSample
  split
  · rw [List.map_map]
    apply List.map_congr_left
    intro a _
    by_cases h : a.1 = l
    · simp [h]
    · simp [h]
  · simp

theorem mem_setSample (xs : List (Labels × ℚ)) (l : Labels) (v : ℚ) (k : Labels) (w : ℚ) :
    (k, w) ∈ setSample xs l v ↔ (k = l ∧ w = v) ∨ (k ≠ l ∧ (k, w) ∈ xs) := by
  unfold setSample
  split
  · rename_i hmem
    rw [List.mem_map]
    constructor
    · rintro ⟨a, ha, hEq⟩
      by_cases h : a.1 = l
      · rw [if_pos h] at hEq
        injection hEq with h1 h2
        exact Or.inl ⟨h1.symm, h2.symm⟩
      · rw [if_neg h] at hEq
        subst hEq
        exact Or.inr ⟨h, ha⟩
    · rintro (⟨rfl, rfl⟩ | ⟨hne, hin⟩)
      · obtain ⟨a, ha, hfst⟩ := List.mem_map.mp hmem
        exact ⟨a, ha, by rw [if_pos hfst]⟩
      · exact ⟨(k, w), hin, by rw [if_neg hne]⟩
  · rename_i hmem
    rw [List.mem_append, List.mem_singleton]
    constructor
    · rintro (hin | hEq)
      · refine Or.inr ⟨?_, hin⟩
        rintro rfl
        exact hmem (List.mem_map.mpr ⟨(k, w), hin, rfl⟩)
      · injection hEq with h1 h2
        exact Or.inl ⟨h1, h2⟩
    · rintro (⟨rfl, rfl⟩ | ⟨_, hin⟩)
      · exact Or.inr rfl
      · exact Or.inl hin

theorem setAll_nil (xs : List (Labels × ℚ)) (v : ℚ) : setAll xs [] v = xs := rfl

theorem setAll_cons (xs : List (Labels × ℚ)) (l : Labels) (ls : List Labels) (v : ℚ) :
    setAll xs (l :: ls) v = setAll (setSample xs l v) ls v := rfl

theorem setAll_append (xs : List (Labels × ℚ)) (as bs : List Labels) (v : ℚ) :
    setAll xs (as ++ bs) v = setAll (setAll xs as v) bs v := by
  unfold setAll
  rw [List.foldl_append]

theorem mem_labels_setAll (ls : List Labels) (xs : List (Labels × ℚ)) (v : ℚ) (k : Labels) :
    k ∈ (setAll xs ls v).map Prod.fst ↔ k ∈ xs.map Prod.fst ∨ k ∈ ls := by
  induction ls generalizing xs with
  | nil => simp [setAll_nil]
  | cons l ls ih =>
    rw [setAll_cons, ih, labels_setSample]
    split
    · rename_i hmem
      constructor
      · rintro (h | h)
        · exact Or.inl h
        · exact Or.inr (List.mem_cons_of_mem _ h)
      · rintro (h | h)
        · exact Or.inl h
        · rcases List.mem_cons.mp h with rfl | h
          · exact Or.inl hmem
          · exact Or.inr h
    · simp only [List.mem_append, List.mem_singleton, List.mem_cons]
      tauto

theorem mem_setAll (ls : List Labels) (xs : List (Labels × ℚ)) (v : ℚ) (k : Labels) (w : ℚ) :
    (k, w) ∈ setAll xs ls v ↔ (k ∈ ls ∧ w = v) ∨ (k ∉ ls ∧ (k, w) ∈ xs) := by
  induction ls generalizing xs with
  | nil => simp [setAll_nil]
  | cons l ls ih =>
    rw [setAll_cons, ih, mem_setSample]
    simp only [List.mem_cons]
    by_cases h2 : k = l
    · subst h2
      by_cases h1 : k ∈ ls <;> simp [h1]
    · by_cases h1 : k ∈ ls <;> simp [h1, h2]

theorem labels_setAll_fresh (ls : List Labels) (xs : List (Labels × ℚ)) (v : ℚ)
    (hnodup : ls.Nodup) (hfresh : ∀ l ∈ ls, l ∉ xs.map Prod.fst) :
    (setAll xs ls v).map Prod.fst = xs.map Prod.fst ++ ls := by
  induction ls generalizing xs with
  | nil => simp [setAll_nil]
  | cons l ls ih =>
    have hl : l ∉ xs.map Prod.fst := hfresh l (List.mem_cons_self _ _)
    have hlabels : (setSample xs l v).map Prod.fst = xs.map Prod.fst ++ [l] := by
      rw [labels_setSample, if_neg hl]
    rw [setAll_cons, ih (setSample xs l v) (List.nodup_cons.mp hnodup).2, hlabels]
    · simp
    · intro k hk
      rw [hlabels, List.mem_append, List.mem_singleton]
      rintro (h | rfl)
      · exact hfresh k (List.mem_cons_of_mem _ hk) h
      · exact (List.nodup_cons.mp hnodup).1 hk

/-! ## Materialisation -/

theorem setAllGauges_nil (metric : JWTMetric) (reg : Registry) :
    setAllGauges metric [] reg = reg := rfl

theorem setAllGauges_append (metric : JWTMetric) (as bs : List Labels) (reg : Registry) :
    setAllGauges metric (as ++ bs) reg = setAllGauges metric bs (setAllGauges metric as reg) := by
  simp only [setAllGauges, setAll_append]

theorem setAllGauges_cons (metric : JWTMetric) (l : Labels) (ls : List Labels)
    (reg : Registry) :
    setAllGauges metric (l :: ls) reg = setAllGauges metric ls (setAllGauges metric [l] reg) :=
  rfl

theorem writeSamples_eq (metric : JWTMetric) (keyName secretName secretNamespace : String)
    (scope role : String) (reg : Registry) :
    writeSamples metric keyName secretName secretNamespace scope role reg =
      setAllGauges metric [tupleOf metric keyName secretName secretNamespace scope role] reg :=
  rfl

/-- The inner loop of `ExportMetrics` stores the four values under the tuples of one
scope. -/
theorem inner_loop_eq (metric : JWTMetric) (keyName secretName secretNamespace : String)
    (scope : String) (roles : List String) (reg : Registry) :
    roles.foldl (fun reg role =>
        writeSamples metric keyName secretName secretNamespace scope role reg) reg =
      setAllGauges metric
        (roles.map fun role => tupleOf metric keyName secretName secretNamespace scope role)
        reg := by
  induction roles generalizing reg with
  | nil => rfl
  | cons role roles ih =>
    rw [List.foldl_cons, ih, writeSamples_eq]
    rfl

/-- The nested loops of `ExportMetrics` store the four values of the record under the
label tuples of the cross product, and touch nothing else. -/
theorem materialize_eq (metric : JWTMetric) (keyName secretName secretNamespace : String)
    (reg : Registry) :
    materialize metric keyName secretName secretNamespace reg =
      setAllGauges metric (labelTuples metric keyName secretName secretNamespace) reg := by
  unfold materialize labelTuples
  generalize metric.scopes = scopes
  induction scopes generalizing reg with
  | nil => rfl
  | cons scope scopes ih =>
    rw [List.foldl_cons, ih, inner_loop_eq, List.flatMap_cons, setAllGauges_append]

theorem normalize_eq (metric : JWTMetric) :
    normalize metric =
      { metric with
        scopes := if metric.scopes = [] then [""] else metric.scopes
        roles := if metric.roles = [] then [""] else metric.roles } := by
  unfold normalize
  by_cases hs : metric.scopes = [] <;> by_cases hr : metric.roles = [] <;>
    simp [hs, hr, List.length_eq_zero]

theorem labelTuples_normalize (metric : JWTMetric) (keyName secretName secretNamespace : String) :
    labelTuples (normalize metric) keyName secretName secretNamespace =
      (List.product (if metric.scopes = [] then [""] else metric.scopes)
        (if metric.roles = [] then [""] else metric.roles)).map
        fun pair => tupleOf metric keyName secretName secretNamespace pair.1 pair.2 := by
  rw [normalize_eq]
  simp only [labelTuples, List.product, List.map_flatMap, List.map_map]
  rfl

theorem tupleOf_injective (metric : JWTMetric) (keyName secretName secretNamespace : String) :
    Function.Injective
      (fun pair : String × String =>
        tupleOf metric keyName secretName secretNamespace pair.1 pair.2) := by
  rintro ⟨s1, r1⟩ ⟨s2, r2⟩ h
  simp only [tupleOf, WithLabelValues, Labels.mk.injEq] at h
  simp [h]

theorem mem_labelTuples_normalize (metric : JWTMetric)
    (keyName secretName secretNamespace : String) (l : Labels) :
    l ∈ labelTuples (normalize metric) keyName secretName secretNamespace ↔
      ∃ scope ∈ (if metric.scopes = [] then [""] else metric.scopes),
        ∃ role ∈ (if metric.roles = [] then [""] else metric.roles),
          l = WithLabelValues metric.algorithm metric.audience metric.subject metric.id scope
            metric.issuer keyName secretName secretNamespace metric.name metric.email role := by
  rw [labelTuples_normalize, List.mem_map]
  constructor
  · rintro ⟨⟨scope, role⟩, hmem, rfl⟩
    rw [List.pair_mem_product] at hmem
    exact ⟨scope, hmem.1, role, hmem.2, rfl⟩
  · rintro ⟨scope, hs, role, hr, rfl⟩
    exact ⟨(scope, role), List.pair_mem_product.mpr ⟨hs, hr⟩, rfl⟩

theorem labelTuples_normalize_ne_nil (metric : JWTMetric)
    (keyName secretName secretNamespace : String) :
    labelTuples (normalize metric) keyName secretName secretNamespace ≠ [] := by
  have hs : ∃ scope, scope ∈ (if metric.scopes = [] then [""] else metric.scopes) := by
    by_cases h : metric.scopes = []
    · exact ⟨"", by simp [h]⟩
    · obtain ⟨a, as, ha⟩ := List.exists_cons_of_ne_nil h
      exact ⟨a, by simp [ha]⟩
  have hr : ∃ role, role ∈ (if metric.roles = [] then [""] else metric.roles) := by
    by_cases h : metric.roles = []
    · exact ⟨"", by simp [h]⟩
    · obtain ⟨a, as, ha⟩ := List.exists_cons_of_ne_nil h
      exact ⟨a, by simp [ha]⟩
  obtain ⟨scope, hscope⟩ := hs
  obtain ⟨role, hrole⟩ := hr
  have hmem := (mem_labelTuples_normalize metric keyName secretName secretNamespace _).mpr
    ⟨scope, hscope, role, hrole, rfl⟩
  exact List.ne_nil_of_mem hmem

/-- A successful `ExportMetrics` call stores the four values of the normalised record
under the label tuples of the cross product. -/
theorem ExportMetrics_of_extracted (codec : Codec) (clock : Clock)
    (token keyName secretName secretNamespace : String) (reg : Registry) (metric : JWTMetric)
    (hget : getMetricsFromJWT codec clock token = .ret (metric, none)) :
    ExportMetrics codec clock token keyName secretName secretNamespace reg =
      .ret (setAllGauges (normalize metric)
        (labelTuples (normalize metric) keyName secretName secretNamespace) reg, none) := by
  simp only [ExportMetrics, hget, materialize_eq]

/-- The samples of each gauge vector after `setAllGauges`. -/
theorem samples_setAllGauges (metric : JWTMetric) (lvs : List Labels) (reg : Registry)
    (sel : Registry → GaugeVec) (hsel : sel ∈ gaugeSelectors) :
    ∃ v, (sel (setAllGauges metric lvs reg)).samples = setAll (sel reg).samples lvs v := by
  simp only [gaugeSelectors, List.mem_cons, List.mem_singleton, List.not_mem_nil,
    or_false] at hsel
  rcases hsel with rfl | rfl | rfl | rfl <;> exact ⟨_, rfl⟩

set_option maxRecDepth 100000 in
theorem getMetricsFromJWT_payloadFull :
    getMetricsFromJWT sampleCodec sampleClock (sampleToken payloadFull) =
      .ret (metricFull, none) := by
  decide!

theorem nodup_labelTuples_normalize (metric : JWTMetric)
    (keyName secretName secretNamespace : String)
    (hscopes : (if metric.scopes = [] then [""] else metric.scopes).Nodup)
    (hroles : (if metric.roles = [] then [""] else metric.roles).Nodup) :
    (labelTuples (normalize metric) keyName secretName secretNamespace).Nodup := by
  rw [labelTuples_normalize]
  exact (List.Nodup.product hscopes hroles).map
    (tupleOf_injective metric keyName secretName secretNamespace)

theorem length_labelTuples_normalize (metric : JWTMetric)
    (keyName secretName secretNamespace : String) :
    (labelTuples (normalize metric) keyName secretName secretNamespace).length =
      (if metric.scopes = [] then [""] else metric.scopes).length *
        (if metric.roles = [] then [""] else metric.roles).length := by
  rw [labelTuples_normalize, List.length_map]
  exact List.length_product _ _

/-! ## Claims about `ExportMetrics` -/

/-- C6. For every successfully extracted record, with `scopes` and `roles` each replaced
by `[""]` when empty, `ExportMetrics` returns no error and adds to each of the four
gauge vectors exactly the label tuples built from the pairs of `scopes × roles`: a tuple
is present afterwards iff it was present before or is one of these.  On a gauge vector
that was empty (as after `ResetMetrics`) this leaves at least one tuple, and exactly
`len(scopes) * len(roles)` tuples when neither list repeats an entry. -/
theorem C6_ExportMetrics_cross_product (codec : Codec) (clock : Clock)
    (token keyName secretName secretNamespace : String) (reg : Registry) (metric : JWTMetric)
    (scopes roles : List String)
    (hget : getMetricsFromJWT codec clock token = .ret (metric, none))
    (hscopes : scopes = if metric.scopes = [] then [""] else metric.scopes)
    (hroles : roles = if metric.roles = [] then [""] else metric.roles) :
    ∃ reg', ExportMetrics codec clock token keyName secretName secretNamespace reg =
        .ret (reg', none) ∧
      ∀ sel ∈ gaugeSelectors,
        (∀ l, l ∈ (sel reg').labels ↔ l ∈ (sel reg).labels ∨
          ∃ scope ∈ scopes, ∃ role ∈ roles,
            l = WithLabelValues metric.algorithm metric.audience metric.subject metric.id
              scope metric.issuer keyName secretName secretNamespace metric.name
              metric.email role) ∧
        ((sel reg).samples = [] →
          1 ≤ (sel reg').labels.length ∧
          (scopes.Nodup → roles.Nodup →
            (sel reg').labels.length = scopes.length * roles.length)) := by
  subst hscopes hroles
  refine ⟨_, ExportMetrics_of_extracted codec clock token keyName secretName secretNamespace
    reg metric hget, fun sel hsel => ?_⟩
  obtain ⟨v, hv⟩ := samples_setAllGauges (normalize metric)
    (labelTuples (normalize metric) keyName secretName secretNamespace) reg sel hsel
  refine ⟨fun l => ?_, fun hempty => ⟨?_, fun hs hr => ?_⟩⟩
  · unfold GaugeVec.labels
    rw [hv, mem_labels_setAll, mem_labelTuples_normalize]
  · obtain ⟨l, ls, hl⟩ := List.exists_cons_of_ne_nil
      (labelTuples_normalize_ne_nil metric keyName secretName secretNamespace)
    have hmem : l ∈ (sel (setAllGauges (normalize metric)
        (labelTuples (normalize metric) keyName secretName secretNamespace) reg)).labels := by
      unfold GaugeVec.labels
      rw [hv, mem_labels_setAll, hl]
      exact Or.inr (List.mem_cons_self _ _)
    exact List.length_pos_of_mem hmem
  · unfold GaugeVec.labels
    rw [hv, hempty, labels_setAll_fresh _ _ _
      (nodup_labelTuples_normalize metric keyName secretName secretNamespace hs hr)
      (by simp), List.map_nil, List.nil_append, length_labelTuples_normalize]

/-- C6, on the sample token with `scope = ["read","write"]` and
`roles = ["admin","viewer"]`: four label tuples in each gauge vector. -/
theorem C6_ExportMetrics_cross_product_witness :
    ∃ reg', ExportMetrics sampleCodec sampleClock (sampleToken payloadFull) "token" "jwt"
        "default" emptyRegistry = .ret (reg', none) ∧
      ∀ sel ∈ gaugeSelectors, (sel reg').labels.length = 4 := by
  obtain ⟨reg', hE, hsel⟩ := C6_ExportMetrics_cross_product sampleCodec sampleClock
    (sampleToken payloadFull) "token" "jwt" "default" emptyRegistry metricFull
    ["read", "write"] ["admin", "viewer"] getMetricsFromJWT_payloadFull rfl rfl
  refine ⟨reg', hE, fun sel hs => ?_⟩
  have hempty : (sel emptyRegistry).samples = [] := by
    simp only [gaugeSelectors, List.mem_cons, List.mem_singleton, List.not_mem_nil,
      or_false] at hs
    rcases hs with rfl | rfl | rfl | rfl <;> rfl
  exact ((hsel sel hs).2 hempty).2 (by decide) (by decide)

/-- C7. For every valid token whose `scope` claim is the single string `scope`, the
extracted scopes are exactly `[scope]`, and `ExportMetrics` adds to each gauge vector
exactly the label tuples whose scope label is `scope` verbatim (one per role), at least
one of them: the string is not split. -/
theorem C7_scope_string_verbatim (codec : Codec) (clock : Clock) (jwtData h p s : String)
    (header : List (String × Value)) (claims : MapClaims)
    (alg sub aud jti scope : String) (exp iat : ℚ)
    (keyName secretName secretNamespace : String) (reg : Registry)
    (hsplit : Split jwtData = [h, p, s])
    (hheader : (codec.DecodeSegment h).bind codec.Unmarshal = some header)
    (hclaims : (codec.DecodeSegment p).bind codec.Unmarshal = some claims)
    (halg : header.lookup "alg" = some (.string alg))
    (hexp : claims.lookup "exp" = some (.number exp)) (hexp0 : exp ≠ 0)
    (hiat : claims.lookup "iat" = some (.number iat)) (hiat0 : iat ≠ 0)
    (hsub : claims.lookup "sub" = some (.string sub))
    (haud : claims.lookup "aud" = some (.string aud))
    (hjti : claims.lookup "jti" = some (.string jti))
    (hscope : claims.lookup "scope" = some (.string scope)) :
    ∃ metric reg', getMetricsFromJWT codec clock jwtData = .ret (metric, none) ∧
      metric.scopes = [scope] ∧
      ExportMetrics codec clock jwtData keyName secretName secretNamespace reg =
        .ret (reg', none) ∧
      ∀ sel ∈ gaugeSelectors,
        (∀ l, l ∈ (sel reg').labels ↔ l ∈ (sel reg).labels ∨
          ∃ role ∈ (if metric.roles = [] then [""] else metric.roles),
            l = WithLabelValues metric.algorithm metric.audience metric.subject metric.id
              scope metric.issuer keyName secretName secretNamespace metric.name
              metric.email role) ∧
        ∃ l ∈ (sel reg').labels, l.scope = scope := by
  have hget := getMetricsFromJWT_valid_record codec clock jwtData h p s header claims alg sub
    aud jti exp iat hsplit hheader hclaims halg hexp hexp0 hiat hiat0 hsub haud hjti
  have hscopes : (recordOf codec clock claims alg sub aud jti exp iat).scopes = [scope] := by
    simp [recordOf, readScopes, hscope, asString?]
  refine ⟨_, _, hget, hscopes, ExportMetrics_of_extracted codec clock jwtData keyName
    secretName secretNamespace reg _ hget, fun sel hsel => ?_⟩
  obtain ⟨v, hv⟩ := samples_setAllGauges (normalize (recordOf codec clock claims alg sub aud jti exp iat))
    (labelTuples (normalize (recordOf codec clock claims alg sub aud jti exp iat)) keyName secretName
      secretNamespace) reg sel hsel
  have hiff : ∀ l, l ∈ (sel (setAllGauges (normalize (recordOf codec clock claims alg sub aud jti exp iat))
      (labelTuples (normalize (recordOf codec clock claims alg sub aud jti exp iat)) keyName
        secretName secretNamespace) reg)).labels ↔ l ∈ (sel reg).labels ∨
      ∃ role ∈ (if (recordOf codec clock claims alg sub aud jti exp iat).roles = [] then [""]
          else (recordOf codec clock claims alg sub aud jti exp iat).roles),
        l = WithLabelValues (recordOf codec clock claims alg sub aud jti exp iat).algorithm
          (recordOf codec clock claims alg sub aud jti exp iat).audience
          (recordOf codec clock claims alg sub aud jti exp iat).subject
          (recordOf codec clock claims alg sub aud jti exp iat).id scope
          (recordOf codec clock claims alg sub aud jti exp iat).issuer keyName secretName
          secretNamespace (recordOf codec clock claims alg sub aud jti exp iat).name
          (recordOf codec clock claims alg sub aud jti exp iat).email role := by
    intro l
    unfold GaugeVec.labels
    rw [hv, mem_labels_setAll, mem_labelTuples_normalize, hscopes]
    simp
  refine ⟨hiff, ?_⟩
  obtain ⟨role, hrole⟩ : ∃ role, role ∈
      (if (recordOf codec clock claims alg sub aud jti exp iat).roles = [] then [""]
        else (recordOf codec clock claims alg sub aud jti exp iat).roles) := by
    by_cases hr : (recordOf codec clock claims alg sub aud jti exp iat).roles = []
    · exact ⟨"", by simp [hr]⟩
    · obtain ⟨a, as, ha⟩ := List.exists_cons_of_ne_nil hr
      exact ⟨a, by simp [ha]⟩
  exact ⟨_, (hiff _).mpr (Or.inr ⟨role, hrole, rfl⟩), rfl⟩

set_option maxRecDepth 100000 in
/-- C7, on the sample token with `scope = "read write"`. -/
theorem C7_scope_string_verbatim_witness :
    ∃ metric reg', getMetricsFromJWT sampleCodec sampleClock (sampleToken payloadScopeString) =
        .ret (metric, none) ∧
      metric.scopes = ["read write"] ∧
      ExportMetrics sampleCodec sampleClock (sampleToken payloadScopeString) "token" "jwt"
        "default" emptyRegistry = .ret (reg', none) ∧
      ∀ sel ∈ gaugeSelectors,
        (∀ l, l ∈ (sel reg').labels ↔ l ∈ (sel emptyRegistry).labels ∨
          ∃ role ∈ (if metric.roles = [] then [""] else metric.roles),
            l = WithLabelValues metric.algorithm metric.audience metric.subject metric.id
              "read write" metric.issuer "token" "jwt" "default" metric.name
              metric.email role) ∧
        ∃ l ∈ (sel reg').labels, l.scope = "read write" :=
  C7_scope_string_verbatim sampleCodec sampleClock (sampleToken payloadScopeString)
    sampleHeader payloadScopeString sampleSignature headerMap claimsScopeString "HS256" "alice"
    "api" "id-1" "read write" 1800000000 1700000000 "token" "jwt" "default" emptyRegistry
    Split_sampleToken_payloadScopeString rfl rfl rfl rfl (by norm_num) rfl (by norm_num) rfl rfl
    rfl rfl

/-! ## Package `time`: what `Sub` computes -/

theorem tdiv_billion (d : Int) :
    d.tdiv 1000000000 = if 0 ≤ d then d / 1000000000 else -((-d) / 1000000000) := by
  split
  · rename_i h
    exact Int.tdiv_eq_ediv h (by norm_num)
  · rename_i h
    have h2 : (0 : Int) ≤ -d := by omega
    have h3 := Int.tdiv_eq_ediv h2 (show (0 : Int) ≤ 1000000000 by norm_num)
    rw [Int.neg_tdiv] at h3
    omega

theorem tmod_billion (d : Int) :
    d.tmod 1000000000 = if 0 ≤ d then d % 1000000000 else -((-d) % 1000000000) := by
  rw [Int.tmod_def, tdiv_billion]
  split <;> omega

theorem wrap64_range (x : Int) :
    -9223372036854775808 ≤ wrap64 x ∧ wrap64 x ≤ 9223372036854775807 ∧
      ∃ m : Int, wrap64 x = x - m * 18446744073709551616 := by
  unfold wrap64
  refine ⟨by omega, by omega, (x + 9223372036854775808) / 18446744073709551616, by omega⟩

theorem wrap64_of_fits (x : Int) (hlo : -9223372036854775808 ≤ x)
    (hhi : x ≤ 9223372036854775807) : wrap64 x = x := by
  unfold wrap64
  omega

/-- The difference that `Sub` computes in `int64` arithmetic is the exact difference up
to a multiple of `2 ^ 64`. -/
theorem Sub_duration (a b : Int) :
    ∃ m : Int, wrap64 (wrap64 (wrap64 a * 1000000000) + b) =
      a * 1000000000 + b - m * 18446744073709551616 := by
  obtain ⟨_, _, m1, h1⟩ := wrap64_range a
  obtain ⟨_, _, m2, h2⟩ := wrap64_range (wrap64 a * 1000000000)
  obtain ⟨_, _, m3, h3⟩ := wrap64_range (wrap64 (wrap64 a * 1000000000) + b)
  exact ⟨m1 * 1000000000 + m2 + m3, by rw [h3, h2, h1]; ring⟩

theorem addSec_spec (sec k : Int) (hsec1 : -9223372036854775808 ≤ sec)
    (hsec2 : sec ≤ 9223372036854775807) (hk1 : -9223372040 ≤ k) (hk2 : k ≤ 9223372040) :
    addSec sec k =
      if -9223372036854775808 ≤ sec + k ∧ sec + k ≤ 9223372036854775807 then sec + k
      else if k > 0 then 9223372036854775807 else -9223372036854775807 := by
  unfold addSec wrap64
  simp only [decide_eq_decide]
  split_ifs <;> omega

theorem Time.Add_spec (u : Time) (d : Int) (hu3 : 0 ≤ u.nsec) (hu4 : u.nsec < 1000000000) :
    ∃ k n : Int, u.Add d = { sec := addSec u.sec k, nsec := n } ∧
      k * 1000000000 + n = u.nsec + d ∧ 0 ≤ n ∧ n < 1000000000 := by
  unfold Time.Add
  simp only [tdiv_billion, tmod_billion]
  split_ifs
  all_goals exact ⟨_, _, rfl, by omega, by omega, by omega⟩

/-- The value of `t.Sub(u)` with its intermediate results named: the wrapped difference
`d`, the seconds `k` and nanoseconds `n` that `u.Add(d)` adds, and the second count `s`
that `addSec` leaves. -/
theorem Time.Sub_unfold (t u : Time) (hu : u.wellFormed) :
    ∃ d k n s m : Int,
      Time.Sub t u =
        (if s = t.sec ∧ n = t.nsec then d
         else if t.sec < u.sec ∨ t.sec = u.sec ∧ t.nsec < u.nsec then minDuration
         else maxDuration) ∧
      d = (t.sec - u.sec) * 1000000000 + (t.nsec - u.nsec) - m * 18446744073709551616 ∧
      -9223372036854775808 ≤ d ∧ d ≤ 9223372036854775807 ∧
      k * 1000000000 + n = u.nsec + d ∧ 0 ≤ n ∧ n < 1000000000 ∧
      s = (if -9223372036854775808 ≤ u.sec + k ∧ u.sec + k ≤ 9223372036854775807 then u.sec + k
        else if k > 0 then 9223372036854775807 else -9223372036854775807) := by
  obtain ⟨hu1, hu2, hu3, hu4⟩ := hu
  obtain ⟨m, hm⟩ := Sub_duration (t.sec - u.sec) (t.nsec - u.nsec)
  obtain ⟨hd1, hd2, _⟩ :=
    wrap64_range (wrap64 (wrap64 (t.sec - u.sec) * 1000000000) + (t.nsec - u.nsec))
  obtain ⟨k, n, hadd, hkn, hn1, hn2⟩ := Time.Add_spec u
    (wrap64 (wrap64 (wrap64 (t.sec - u.sec) * 1000000000) + (t.nsec - u.nsec))) hu3 hu4
  have hk := addSec_spec u.sec k hu1 hu2 (by omega) (by omega)
  refine ⟨_, k, n, _, m, ?_, hm, hd1, hd2, hkn, hn1, hn2, hk⟩
  simp only [Time.Sub, hadd, Time.Equal, Time.Before, Bool.decide_and, Bool.decide_or,
    Bool.and_eq_true, Bool.or_eq_true, decide_eq_true_eq]

/-- When the exact difference fits a `Duration`, `t.Sub(u)` is that difference. -/
theorem Time.Sub_of_fits (t u : Time) (ht : t.wellFormed) (hu : u.wellFormed)
    (hlo : minDuration ≤ t.nanosBetween u) (hhi : t.nanosBetween u ≤ maxDuration) :
    Time.Sub t u = t.nanosBetween u := by
  obtain ⟨ht1, ht2, ht3, ht4⟩ := ht
  obtain ⟨d, k, n, s, m, hsub, hm, hd1, hd2, hkn, hn1, hn2, hs⟩ := Time.Sub_unfold t u hu
  obtain ⟨hu1, hu2, hu3, hu4⟩ := hu
  unfold Time.nanosBetween at hlo hhi ⊢
  unfold minDuration at hlo
  unfold maxDuration at hhi
  have hm0 : m = 0 := by omega
  subst hm0
  have hkj : k = t.sec - u.sec := by omega
  subst hkj
  have hst : s = t.sec ∧ n = t.nsec := by
    rw [if_pos (by omega)] at hs
    omega
  rw [hsub, if_pos hst]
  show (d : Int) = _
  omega

/-- When the exact difference is above the largest `Duration`, `t.Sub(u)` is the largest
`Duration`. -/
theorem Time.Sub_of_above (t u : Time) (ht : t.wellFormed) (hu : u.wellFormed)
    (hhi : maxDuration < t.nanosBetween u) : Time.Sub t u = maxDuration := by
  obtain ⟨ht1, ht2, ht3, ht4⟩ := ht
  obtain ⟨d, k, n, s, m, hsub, hm, hd1, hd2, hkn, hn1, hn2, hs⟩ := Time.Sub_unfold t u hu
  obtain ⟨hu1, hu2, hu3, hu4⟩ := hu
  unfold Time.nanosBetween at hhi
  unfold maxDuration at hhi
  clear hm
  have hj1 : 9223372036 ≤ t.sec - u.sec := by omega
  have hst : ¬ (s = t.sec ∧ n = t.nsec) := by
    rintro ⟨hs1, hs2⟩
    have hjk : k < t.sec - u.sec := by omega
    split_ifs at hs <;> omega
  have hb : ¬ (t.sec < u.sec ∨ t.sec = u.sec ∧ t.nsec < u.nsec) := by omega
  rw [hsub, if_neg hst, if_neg hb]

/-- When the exact difference is below the smallest `Duration`, `t.Sub(u)` is the
smallest `Duration`. -/
theorem Time.Sub_of_below (t u : Time) (ht : t.wellFormed) (hu : u.wellFormed)
    (hlo : t.nanosBetween u < minDuration) : Time.Sub t u = minDuration := by
  obtain ⟨ht1, ht2, ht3, ht4⟩ := ht
  obtain ⟨d, k, n, s, m, hsub, hm, hd1, hd2, hkn, hn1, hn2, hs⟩ := Time.Sub_unfold t u hu
  obtain ⟨hu1, hu2, hu3, hu4⟩ := hu
  unfold Time.nanosBetween at hlo
  unfold minDuration at hlo
  clear hm
  have hj1 : t.sec - u.sec ≤ -9223372036 := by omega
  have hst : ¬ (s = t.sec ∧ n = t.nsec) := by
    rintro ⟨hs1, hs2⟩
    have hjk : t.sec - u.sec < k := by omega
    split_ifs at hs <;> omega
  have hb : t.sec < u.sec ∨ t.sec = u.sec ∧ t.nsec < u.nsec := by omega
  rw [hsub, if_neg hst, if_pos hb]

/-! ## Package `jwt`: the dates it builds -/

/-- Whatever it is given, `time.Unix` builds a well-formed `Time`. -/
theorem time.Unix_wellFormed (sec nsec : Int) : (time.Unix sec nsec).wellFormed := by
  unfold time.Unix Time.wellFormed
  simp only [tdiv_billion]
  split_ifs <;> refine ⟨(wrap64_range _).1, (wrap64_range _).2.1, ?_, ?_⟩ <;>
    dsimp only <;> omega

/-- Truncation to `TimePrecision` keeps the second and clears the nanoseconds. -/
theorem Time.Truncate_second (t : Time) (ht : t.wellFormed) :
    t.Truncate TimePrecision = { sec := t.sec, nsec := 0 } := by
  obtain ⟨ht1, ht2, ht3, ht4⟩ := ht
  have hr : divRemainder t TimePrecision = t.nsec := by
    unfold divRemainder TimePrecision
    have h1 : (1000000000 : Int).tdiv 1000000000 = 1 := by decide
    have h0 : wrap64 0 = 0 := by decide
    simp only [h1, Int.tmod_one, zero_mul, zero_add, h0]
    show (ite _ _ _ : Int) = _
    by_cases hneg : t.sec < 0
    · by_cases hn : t.nsec = 0
      · simp [hneg, hn, h0]
      · have hlt : -t.nsec < 0 := by omega
        simp only [hneg, hlt, and_self, if_true, true_and]
        rw [wrap64_of_fits _ (by omega) (by omega), if_pos (by omega)]
        omega
    · simp only [hneg, false_and, if_false]
      exact wrap64_of_fits _ (by omega) (by omega)
  unfold Time.Truncate
  rw [if_neg (by unfold TimePrecision; decide), hr]
  have hadd : ∀ x : Int, 0 ≤ x → x < 1000000000 →
      Time.Add { sec := t.sec, nsec := x } (-x) = { sec := t.sec, nsec := 0 } := by
    intro x hx1 hx2
    unfold Time.Add
    simp only [tdiv_billion, tmod_billion]
    by_cases hx : x = 0
    · subst hx
      have h00 : addSec t.sec 0 = t.sec := by
        unfold addSec
        rw [add_zero, wrap64_of_fits _ ht1 ht2]
        simp
      simp [h00]
    · have hneg : ¬ (0 : Int) ≤ -x := by omega
      have hq : (- -x) / 1000000000 = 0 := by omega
      have hm : (- -x) % 1000000000 = x := by omega
      simp only [hneg, if_false, hq, hm, neg_zero, add_neg_cancel, zero_add]
      have h00 : addSec t.sec 0 = t.sec := by
        unfold addSec
        rw [add_zero, wrap64_of_fits _ ht1 ht2]
        simp
      simp [h00]
  exact hadd t.nsec ht3 ht4

/-- Every date that `newNumericDateFromSeconds` builds is a well-formed `Time` at a whole
second. -/
theorem newNumericDateFromSeconds_wellFormed (codec : Codec) (f : ℚ) :
    (newNumericDateFromSeconds codec f).Time.wellFormed ∧
      (newNumericDateFromSeconds codec f).Time.nsec = 0 := by
  unfold newNumericDateFromSeconds NewNumericDate
  simp only
  rw [Time.Truncate_second _ (time.Unix_wellFormed _ _)]
  exact ⟨⟨(time.Unix_wellFormed _ _).1, (time.Unix_wellFormed _ _).2.1, le_refl _,
    by norm_num⟩, rfl⟩

/-- An integer claim `n` that `time.Time` can hold gives the instant `n` seconds after the
Unix epoch, and `Unix()` gives `n` back. -/
theorem newNumericDateFromSeconds_int (codec : Codec) (n : Int)
    (hlo : -9223372036854775808 ≤ n) (hhi : n ≤ 9223372036854775807 - 62135596800) :
    (newNumericDateFromSeconds codec n).Time = { sec := n + 62135596800, nsec := 0 } ∧
      Time.Unix (newNumericDateFromSeconds codec n).Time = n := by
  have hint : integerPart (n : ℚ) = n := by
    unfold integerPart
    split <;> simp
  have hfrac : toInt64 codec (roundFloat64 (((n : ℚ) - (integerPart (n : ℚ) : ℚ)) *
      1000000000)) = 0 := by
    rw [hint, sub_self, zero_mul]
    unfold roundFloat64 toInt64 integerPart
    simp
  have hsec : toInt64 codec ((integerPart (n : ℚ) : Int) : ℚ) = n := by
    rw [hint]
    unfold toInt64
    rw [hint, if_pos ⟨hlo, by omega⟩]
  have hdate : (newNumericDateFromSeconds codec n).Time =
      { sec := n + 62135596800, nsec := 0 } := by
    unfold newNumericDateFromSeconds NewNumericDate
    simp only
    rw [Time.Truncate_second _ (time.Unix_wellFormed _ _), hfrac, hsec]
    unfold time.Unix unixToInternal
    rw [if_neg (by omega), wrap64_of_fits _ (by omega) (by omega)]
  refine ⟨hdate, ?_⟩
  rw [hdate]
  unfold Time.Unix unixToInternal
  simp only
  rw [show n + 62135596800 - 62135596800 = n by ring, wrap64_of_fits _ hlo (by omega)]

/-- An `exp` so large that `time.Unix` wraps it into the past: for the claim
9223372000000000000 the time built lies before the clock reading and `time.Until` gives
the smallest `Duration`, -9223372036.854776 seconds. -/
theorem Until_wrapped_expiry :
    Duration.Seconds (Until sampleClock
      (newNumericDateFromSeconds sampleCodec 9223372000000000000).Time) =
      -4835703278458517 / 524288 := by
  decide!

/-! ## Gauge values -/

/-- On a written label tuple, a gauge vector holds exactly the value that was set. -/
theorem mem_setAll_of_mem (ls : List Labels) (xs : List (Labels × ℚ)) (v : ℚ) (k : Labels)
    (w : ℚ) (hk : k ∈ ls) : (k, w) ∈ setAll xs ls v ↔ w = v := by
  rw [mem_setAll]
  constructor
  · rintro (⟨_, h⟩ | ⟨h, _⟩)
    · exact h
    · exact absurd hk h
  · intro h
    exact Or.inl ⟨hk, h⟩

/-- C8 (amended). For every valid token whose `exp` and `iat` claims are numbers other
than 0, with `expT` and `iatT` the `time.Time` values that the library builds from
them, every label tuple that `ExportMetrics` writes carries afterwards: on the
expires-in-seconds gauge `time.Until(expT).Seconds()`, on the expiration-timestamp gauge
`float64(expT.Unix())`, on the issued-at-timestamp gauge `float64(iatT.Unix())`, on the
issued-since-seconds gauge `time.Since(iatT).Seconds()`.  For an integer claim `n` that `time.Time` can hold
(`-2^63 ≤ n ≤ 2^63 - 1 - 62135596800`) the time built is the instant `n` seconds after
the Unix epoch and its `Unix()` is `n`.  With `now` the clock reading of the respective
call, `time.Until(expT)` is the exact difference `expT - now` and `time.Since(iatT)` the
exact difference `now - iatT` whenever that difference fits a `Duration`; it is the
largest `Duration` when the difference is above and the smallest when it is below. -/
theorem C8_gauge_values (codec : Codec) (clock : Clock) (jwtData h p s : String)
    (header : List (String × Value)) (claims : MapClaims)
    (alg sub aud jti : String) (exp iat : ℚ) (expT iatT : Time)
    (keyName secretName secretNamespace : String) (reg : Registry)
    (hsplit : Split jwtData = [h, p, s])
    (hheader : (codec.DecodeSegment h).bind codec.Unmarshal = some header)
    (hclaims : (codec.DecodeSegment p).bind codec.Unmarshal = some claims)
    (halg : header.lookup "alg" = some (.string alg))
    (hexp : claims.lookup "exp" = some (.number exp)) (hexp0 : exp ≠ 0)
    (hiat : claims.lookup "iat" = some (.number iat)) (hiat0 : iat ≠ 0)
    (hsub : claims.lookup "sub" = some (.string sub))
    (haud : claims.lookup "aud" = some (.string aud))
    (hjti : claims.lookup "jti" = some (.string jti))
    (hexpT : expT = (newNumericDateFromSeconds codec exp).Time)
    (hiatT : iatT = (newNumericDateFromSeconds codec iat).Time) :
    ∃ metric reg', getMetricsFromJWT codec clock jwtData = .ret (metric, none) ∧
      ExportMetrics codec clock jwtData keyName secretName secretNamespace reg =
        .ret (reg', none) ∧
      (∀ scope ∈ (if metric.scopes = [] then [""] else metric.scopes),
        ∀ role ∈ (if metric.roles = [] then [""] else metric.roles),
        ∀ l, l = WithLabelValues metric.algorithm metric.audience metric.subject metric.id
            scope metric.issuer keyName secretName secretNamespace metric.name
            metric.email role →
        ∀ w : ℚ,
          ((l, w) ∈ reg'.JWTExpirySeconds.samples ↔
            w = Duration.Seconds (Time.Sub expT clock.untilNow)) ∧
          ((l, w) ∈ reg'.JWTExpirationTimestamp.samples ↔
            w = float64OfInt (Time.Unix expT)) ∧
          ((l, w) ∈ reg'.JWTIssuedAtTimestamp.samples ↔
            w = float64OfInt (Time.Unix iatT)) ∧
          ((l, w) ∈ reg'.JWTIssuedSinceSeconds.samples ↔
            w = Duration.Seconds (Time.Sub clock.sinceNow iatT))) ∧
      (∀ n : Int, exp = n → -9223372036854775808 ≤ n →
        n ≤ 9223372036854775807 - 62135596800 →
        expT = { sec := n + 62135596800, nsec := 0 } ∧ Time.Unix expT = n) ∧
      (∀ n : Int, iat = n → -9223372036854775808 ≤ n →
        n ≤ 9223372036854775807 - 62135596800 →
        iatT = { sec := n + 62135596800, nsec := 0 } ∧ Time.Unix iatT = n) ∧
      (clock.untilNow.wellFormed →
        (minDuration ≤ expT.nanosBetween clock.untilNow →
          expT.nanosBetween clock.untilNow ≤ maxDuration →
          Time.Sub expT clock.untilNow = expT.nanosBetween clock.untilNow) ∧
        (maxDuration < expT.nanosBetween clock.untilNow →
          Time.Sub expT clock.untilNow = maxDuration) ∧
        (expT.nanosBetween clock.untilNow < minDuration →
          Time.Sub expT clock.untilNow = minDuration)) ∧
      (clock.sinceNow.wellFormed →
        (minDuration ≤ clock.sinceNow.nanosBetween iatT →
          clock.sinceNow.nanosBetween iatT ≤ maxDuration →
          Time.Sub clock.sinceNow iatT = clock.sinceNow.nanosBetween iatT) ∧
        (maxDuration < clock.sinceNow.nanosBetween iatT →
          Time.Sub clock.sinceNow iatT = maxDuration) ∧
        (clock.sinceNow.nanosBetween iatT < minDuration →
          Time.Sub clock.sinceNow iatT = minDuration)) := by
  subst hexpT hiatT
  have hget := getMetricsFromJWT_valid_record codec clock jwtData h p s header claims alg sub
    aud jti exp iat hsplit hheader hclaims halg hexp hexp0 hiat hiat0 hsub haud hjti
  have hwfe := (newNumericDateFromSeconds_wellFormed codec exp).1
  have hwfi := (newNumericDateFromSeconds_wellFormed codec iat).1
  refine ⟨_, _, hget, ExportMetrics_of_extracted codec clock jwtData keyName secretName
    secretNamespace reg _ hget, ?_, ?_, ?_, ?_, ?_⟩
  · intro scope hscope role hrole l hl w
    have hmem : l ∈ labelTuples (normalize (recordOf codec clock claims alg sub aud jti exp
        iat)) keyName secretName secretNamespace :=
      (mem_labelTuples_normalize _ keyName secretName secretNamespace l).mpr
        ⟨scope, hscope, role, hrole, hl⟩
    have key : ∀ (xs : List (Labels × ℚ)) (v v' : ℚ), v = v' →
        ((l, w) ∈ setAll xs (labelTuples (normalize (recordOf codec clock claims alg sub aud
          jti exp iat)) keyName secretName secretNamespace) v ↔ w = v') :=
      fun xs v v' hv => hv ▸ mem_setAll_of_mem _ xs v l w hmem
    refine ⟨key _ _ _ ?_, key _ _ _ ?_, key _ _ _ ?_, key _ _ _ ?_⟩ <;>
      · rw [normalize_eq]
        rfl
  · intro n hn hlo hhi
    subst hn
    exact newNumericDateFromSeconds_int codec n hlo hhi
  · intro n hn hlo hhi
    subst hn
    exact newNumericDateFromSeconds_int codec n hlo hhi
  · intro hnow
    exact ⟨Time.Sub_of_fits _ _ hwfe hnow, Time.Sub_of_above _ _ hwfe hnow,
      Time.Sub_of_below _ _ hwfe hnow⟩
  · intro hnow
    exact ⟨Time.Sub_of_fits _ _ hnow hwfi, Time.Sub_of_above _ _ hnow hwfi,
      Time.Sub_of_below _ _ hnow hwfi⟩

theorem newNumericDateFromSeconds_sample_exp :
    (newNumericDateFromSeconds sampleCodec 1800000000).Time =
      { sec := 63935596800, nsec := 0 } := by
  decide!

theorem newNumericDateFromSeconds_sample_iat :
    (newNumericDateFromSeconds sampleCodec 1700000000).Time =
      { sec := 63835596800, nsec := 0 } := by
  decide!

set_option maxRecDepth 100000 in
/-- C8 (amended), on the sample token: it expires 6249600 seconds after the sample clock
reading, which fits a `Duration`, and `time.Until` gives that difference. -/
theorem C8_gauge_values_witness :
    ∃ metric reg', getMetricsFromJWT sampleCodec sampleClock (sampleToken payloadFull) =
        .ret (metric, none) ∧
      ExportMetrics sampleCodec sampleClock (sampleToken payloadFull) "token" "jwt" "default"
        emptyRegistry = .ret (reg', none) ∧
      Time.Sub { sec := 63935596800, nsec := 0 } sampleClock.untilNow = 6249600000000000 := by
  obtain ⟨metric, reg', hget, hexport, _, _, _, huntil, _⟩ :=
    C8_gauge_values sampleCodec sampleClock (sampleToken payloadFull) sampleHeader payloadFull
      sampleSignature headerMap claimsFull "HS256" "alice" "api" "id-1" 1800000000 1700000000
      { sec := 63935596800, nsec := 0 } { sec := 63835596800, nsec := 0 } "token" "jwt"
      "default" emptyRegistry
      Split_sampleToken_payloadFull rfl rfl rfl rfl (by norm_num) rfl (by norm_num) rfl rfl rfl
      newNumericDateFromSeconds_sample_exp.symm newNumericDateFromSeconds_sample_iat.symm
  refine ⟨metric, reg', hget, hexport, ?_⟩
  rw [(huntil (by decide)).1 (by decide) (by decide)]
  decide

set_option maxRecDepth 100000 in
/-- C8, as stated, fails for a token that expires in the year 9999: `exp` is
253402300799 and the clock reads 1793750400 (both in Unix seconds), so `exp - now` is
251608550399 seconds, but the sample written to the expires-in-seconds gauge carries
9223372036.854776..., the largest `Duration` in seconds. -/
theorem C8_counterexample_far_expiry :
    ∃ reg' l w,
      ExportMetrics sampleCodec sampleClock (sampleToken payloadFarExp) "token" "jwt" "default"
        emptyRegistry = .ret (reg', none) ∧
      (l, w) ∈ reg'.JWTExpirySeconds.samples ∧
      w = 4835703278458517 / 524288 ∧
      w ≠ (253402300799 : ℚ) - 1793750400 := by
  have hget := getMetricsFromJWT_valid_record sampleCodec sampleClock
    (sampleToken payloadFarExp) sampleHeader payloadFarExp sampleSignature headerMap
    claimsFarExp "HS256" "alice" "api" "id-1" 253402300799 1700000000
    Split_sampleToken_payloadFarExp rfl rfl rfl rfl (by norm_num) rfl (by norm_num) rfl rfl rfl
  have hexport := ExportMetrics_of_extracted sampleCodec sampleClock
    (sampleToken payloadFarExp) "token" "jwt" "default" emptyRegistry _ hget
  obtain ⟨l, ls, hl⟩ := List.exists_cons_of_ne_nil (labelTuples_normalize_ne_nil
    (recordOf sampleCodec sampleClock claimsFarExp "HS256" "alice" "api" "id-1" 253402300799
      1700000000) "token" "jwt" "default")
  have hmem : l ∈ labelTuples (normalize (recordOf sampleCodec sampleClock claimsFarExp
      "HS256" "alice" "api" "id-1" 253402300799 1700000000)) "token" "jwt" "default" :=
    hl ▸ List.mem_cons_self _ _
  have hvalue : (normalize (recordOf sampleCodec sampleClock claimsFarExp "HS256" "alice"
      "api" "id-1" 253402300799 1700000000)).durationUntilExpiry =
      4835703278458517 / 524288 := by
    rw [normalize_eq]
    show Duration.Seconds (Time.Sub (newNumericDateFromSeconds sampleCodec 253402300799).Time
      sampleClock.untilNow) = _
    decide!
  have hsample := (mem_setAll_of_mem _ emptyRegistry.JWTExpirySeconds.samples
    (normalize (recordOf sampleCodec sampleClock claimsFarExp "HS256" "alice" "api" "id-1"
      253402300799 1700000000)).durationUntilExpiry l _ hmem).mpr rfl
  refine ⟨_, l, _, hexport, hsample, hvalue, ?_⟩
  rw [hvalue]
  norm_num

/-! ## The poll cycle -/

theorem Registry.sameGauges_refl (reg : Registry) : reg.sameGauges reg :=
  ⟨rfl, rfl, rfl, rfl⟩

theorem Registry.sameGauges_IncErrorTotal (r1 r2 : Registry) (h : r1.sameGauges r2) :
    r1.IncErrorTotal.sameGauges r2.IncErrorTotal := h

theorem Registry.sameGauges_sel (r1 r2 : Registry) (h : r1.sameGauges r2)
    (sel : Registry → GaugeVec) (hsel : sel ∈ gaugeSelectors) : sel r1 = sel r2 := by
  simp only [gaugeSelectors, List.mem_cons, List.mem_singleton, List.not_mem_nil,
    or_false] at hsel
  obtain ⟨h1, h2, h3, h4⟩ := h
  rcases hsel with rfl | rfl | rfl | rfl
  · exact h1
  · exact h2
  · exact h3
  · exact h4

theorem setAllGauges_sameGauges (metric : JWTMetric) (lvs : List Labels) (r1 r2 : Registry)
    (h : r1.sameGauges r2) :
    (setAllGauges metric lvs r1).sameGauges (setAllGauges metric lvs r2) := by
  obtain ⟨h1, h2, h3, h4⟩ := h
  unfold Registry.sameGauges setAllGauges
  simp only [h1, h2, h3, h4, and_self]

/-- The three ways in which `ExportMetrics` can end, by the result of the extraction. -/
theorem ExportMetrics_cases (codec : Codec) (clock : Clock)
    (token keyName secretName secretNamespace : String) (reg : Registry) :
    ExportMetrics codec clock token keyName secretName secretNamespace reg =
      match getMetricsFromJWT codec clock token with
      | .panic q => .panic q
      | .ret (_, some err) => .ret (reg, some err)
      | .ret (metric, none) =>
        .ret (setAllGauges (normalize metric)
          (labelTuples (normalize metric) keyName secretName secretNamespace) reg, none) := by
  unfold ExportMetrics
  split <;> simp_all [materialize_eq]

/-- The calls, the panic and the gauge samples produced by the loop over the secrets do
not depend on the error counter it starts from. -/
theorem reviewSecrets_sameGauges (p : Checker) (codec : Codec) (items : List (Secret × Clock))
    (r1 r2 : Registry) (calls : List Call) (h : r1.sameGauges r2) :
    (reviewSecrets p codec items r1 calls).calls = (reviewSecrets p codec items r2 calls).calls ∧
    (reviewSecrets p codec items r1 calls).panicked =
      (reviewSecrets p codec items r2 calls).panicked ∧
    (reviewSecrets p codec items r1 calls).reg.sameGauges
      (reviewSecrets p codec items r2 calls).reg := by
  induction items generalizing r1 r2 calls with
  | nil => exact ⟨rfl, rfl, h⟩
  | cons item items ih =>
    obtain ⟨secret, clock⟩ := item
    simp only [reviewSecrets, ExportMetrics_cases]
    cases hget : getMetricsFromJWT codec clock (tokenOf p secret) with
    | panic q => exact ⟨rfl, rfl, h⟩
    | ret a =>
      obtain ⟨metric, err⟩ := a
      cases err with
      | some e => exact ih _ _ _ (Registry.sameGauges_IncErrorTotal r1 r2 h)
      | none => exact ih _ _ _ (setAllGauges_sameGauges _ _ r1 r2 h)

/-- The loop over the secrets calls `ExportMetrics` for the secrets in order, up to the
first panic, and makes no other call on the exporter. -/
theorem reviewSecrets_calls (p : Checker) (codec : Codec) (items : List (Secret × Clock))
    (reg : Registry) (calls : List Call) :
    ∃ n, (reviewSecrets p codec items reg calls).calls =
      calls ++ ((items.take n).map fun item => callOf p item.1) := by
  induction items generalizing reg calls with
  | nil => exact ⟨0, by simp [reviewSecrets]⟩
  | cons item items ih =>
    obtain ⟨secret, clock⟩ := item
    simp only [reviewSecrets, ExportMetrics_cases]
    cases hget : getMetricsFromJWT codec clock (tokenOf p secret) with
    | panic q => exact ⟨1, by simp⟩
    | ret a =>
      obtain ⟨metric, err⟩ := a
      cases err with
      | some e =>
        obtain ⟨n, hn⟩ := ih reg.IncErrorTotal (calls ++ [callOf p secret])
        exact ⟨n + 1, by simp [hn]⟩
      | none =>
        obtain ⟨n, hn⟩ := ih (setAllGauges (normalize metric)
          (labelTuples (normalize metric) (secretKeyOf p secret) secret.Name secret.Namespace)
          reg) (calls ++ [callOf p secret])
        exact ⟨n + 1, by simp [hn]⟩

theorem withClocks_map_fst (clocks : Nat → Clock) (start : Nat) (secrets : List Secret) :
    (withClocks clocks start secrets).map Prod.fst = secrets := by
  induction secrets generalizing start with
  | nil => rfl
  | cons secret secrets ih => simp [withClocks, ih]

theorem Registry.labelsFrom_of_sameGauges (p : Checker) (secrets : List Secret)
    (r1 r2 : Registry) (h : r1.sameGauges r2) (h1 : r1.labelsFrom p secrets) :
    r2.labelsFrom p secrets := by
  intro sel hsel l hl
  rw [← Registry.sameGauges_sel r1 r2 h sel hsel] at hl
  exact h1 sel hsel l hl

theorem setAllGauges_labelsFrom (p : Checker) (secrets : List Secret) (secret : Secret)
    (metric : JWTMetric) (reg : Registry) (hsecret : secret ∈ secrets)
    (hreg : reg.labelsFrom p secrets) :
    (setAllGauges (normalize metric)
      (labelTuples (normalize metric) (secretKeyOf p secret) secret.Name secret.Namespace)
      reg).labelsFrom p secrets := by
  intro sel hsel l hl
  obtain ⟨v, hv⟩ := samples_setAllGauges (normalize metric)
    (labelTuples (normalize metric) (secretKeyOf p secret) secret.Name secret.Namespace)
    reg sel hsel
  unfold GaugeVec.labels at hl
  rw [hv, mem_labels_setAll, mem_labelTuples_normalize] at hl
  rcases hl with hold | ⟨scope, _, role, _, rfl⟩
  · exact hreg sel hsel l hold
  · exact ⟨secret, hsecret, rfl, rfl, rfl⟩

/-- The loop over the secrets only writes label tuples that name a reviewed secret. -/
theorem reviewSecrets_labelsFrom (p : Checker) (codec : Codec) (secrets : List Secret)
    (items : List (Secret × Clock)) (reg : Registry) (calls : List Call)
    (hitems : ∀ item ∈ items, item.1 ∈ secrets) (hreg : reg.labelsFrom p secrets) :
    (reviewSecrets p codec items reg calls).reg.labelsFrom p secrets := by
  induction items generalizing reg calls with
  | nil => exact hreg
  | cons item items ih =>
    obtain ⟨secret, clock⟩ := item
    have hrest : ∀ item ∈ items, item.1 ∈ secrets :=
      fun item hitem => hitems item (List.mem_cons_of_mem _ hitem)
    simp only [reviewSecrets, ExportMetrics_cases]
    cases hget : getMetricsFromJWT codec clock (tokenOf p secret) with
    | panic q => exact hreg
    | ret a =>
      obtain ⟨metric, err⟩ := a
      cases err with
      | some e =>
        exact ih _ _ hrest (Registry.labelsFrom_of_sameGauges p secrets reg reg.IncErrorTotal
          ⟨rfl, rfl, rfl, rfl⟩ hreg)
      | none =>
        exact ih _ _ hrest (setAllGauges_labelsFrom p secrets secret metric reg
          (hitems (secret, clock) (List.mem_cons_self _ _)) hreg)

theorem listSecrets_sameGauges (p : Checker) (cluster : Cluster) (ns : String)
    (acc1 acc2 : List Secret × Registry)
    (h : acc1.1 = acc2.1 ∧ acc1.2.sameGauges acc2.2) :
    (listSecrets p cluster ns acc1).1 = (listSecrets p cluster ns acc2).1 ∧
      (listSecrets p cluster ns acc1).2.sameGauges (listSecrets p cluster ns acc2).2 := by
  unfold listSecrets
  split
  · generalize p.labelSelectors = selectors
    induction selectors generalizing acc1 acc2 with
    | nil => exact h
    | cons sel selectors ih =>
      simp only [List.foldl_cons]
      apply ih
      cases cluster.Secrets ns sel with
      | none => exact ⟨h.1, Registry.sameGauges_IncErrorTotal _ _ h.2⟩
      | some found => exact ⟨by simp only [h.1], h.2⟩
  · cases cluster.Secrets ns "" with
    | none => exact ⟨h.1, Registry.sameGauges_IncErrorTotal _ _ h.2⟩
    | some found => exact ⟨by simp only [h.1], h.2⟩

theorem foldl_listSecrets_sameGauges (p : Checker) (cluster : Cluster) (nss : List String)
    (acc1 acc2 : List Secret × Registry)
    (h : acc1.1 = acc2.1 ∧ acc1.2.sameGauges acc2.2) :
    (nss.foldl (fun acc ns => listSecrets p cluster ns acc) acc1).1 =
        (nss.foldl (fun acc ns => listSecrets p cluster ns acc) acc2).1 ∧
      (nss.foldl (fun acc ns => listSecrets p cluster ns acc) acc1).2.sameGauges
        (nss.foldl (fun acc ns => listSecrets p cluster ns acc) acc2).2 := by
  induction nss generalizing acc1 acc2 with
  | nil => exact h
  | cons ns nss ih =>
    simp only [List.foldl_cons]
    exact ih _ _ (listSecrets_sameGauges p cluster ns acc1 acc2 h)

/-- The secrets found in a cycle do not depend on the registry, and discovery leaves the
gauge vectors as they are. -/
theorem discover_sameGauges (p : Checker) (cluster : Cluster) (r1 r2 : Registry)
    (h : r1.sameGauges r2) :
    (discover p cluster r1).1 = (discover p cluster r2).1 ∧
      (discover p cluster r1).2.sameGauges (discover p cluster r2).2 := by
  have hnss : (listNamespaces cluster r1).1 = (listNamespaces cluster r2).1 := by
    unfold listNamespaces
    cases cluster.Namespaces <;> rfl
  have hreg : (listNamespaces cluster r1).2.sameGauges (listNamespaces cluster r2).2 := by
    unfold listNamespaces
    cases cluster.Namespaces with
    | none => exact Registry.sameGauges_IncErrorTotal _ _ h
    | some items => exact h
  simp only [discover, hnss]
  exact foldl_listSecrets_sameGauges p cluster _ _ _ ⟨rfl, hreg⟩

theorem listSecrets_keeps_gauges (p : Checker) (cluster : Cluster) (ns : String)
    (acc : List Secret × Registry) (reg : Registry) (h : acc.2.sameGauges reg) :
    (listSecrets p cluster ns acc).2.sameGauges reg := by
  unfold listSecrets
  split
  · generalize p.labelSelectors = selectors
    induction selectors generalizing acc with
    | nil => exact h
    | cons sel selectors ih =>
      simp only [List.foldl_cons]
      apply ih
      cases cluster.Secrets ns sel with
      | none => exact h
      | some found => exact h
  · cases cluster.Secrets ns "" with
    | none => exact h
    | some found => exact h

theorem foldl_listSecrets_keeps_gauges (p : Checker) (cluster : Cluster) (nss : List String)
    (acc : List Secret × Registry) (reg : Registry) (h : acc.2.sameGauges reg) :
    (nss.foldl (fun acc ns => listSecrets p cluster ns acc) acc).2.sameGauges reg := by
  induction nss generalizing acc with
  | nil => exact h
  | cons ns nss ih =>
    simp only [List.foldl_cons]
    exact ih _ (listSecrets_keeps_gauges p cluster ns acc reg h)

theorem discover_keeps_gauges (p : Checker) (cluster : Cluster) (reg : Registry) :
    (discover p cluster reg).2.sameGauges reg := by
  have hstart : (listNamespaces cluster reg).2.sameGauges reg := by
    unfold listNamespaces
    cases cluster.Namespaces with
    | none => exact Registry.sameGauges_refl reg
    | some items => exact Registry.sameGauges_refl reg
  simp only [discover]
  exact foldl_listSecrets_keeps_gauges p cluster _ _ reg hstart

theorem Registry.sameGauges_trans (r1 r2 r3 : Registry) (h12 : r1.sameGauges r2)
    (h23 : r2.sameGauges r3) : r1.sameGauges r3 :=
  ⟨h12.1.trans h23.1, h12.2.1.trans h23.2.1, h12.2.2.1.trans h23.2.2.1,
    h12.2.2.2.trans h23.2.2.2⟩

/-- The panic and the gauge samples produced by the loop over the secrets depend neither
on the error counter nor on the calls recorded before it. -/
theorem reviewSecrets_gauges (p : Checker) (codec : Codec) (items : List (Secret × Clock))
    (r1 r2 : Registry) (c1 c2 : List Call) (h : r1.sameGauges r2) :
    (reviewSecrets p codec items r1 c1).panicked =
      (reviewSecrets p codec items r2 c2).panicked ∧
    (reviewSecrets p codec items r1 c1).reg.sameGauges
      (reviewSecrets p codec items r2 c2).reg := by
  induction items generalizing r1 r2 c1 c2 with
  | nil => exact ⟨rfl, h⟩
  | cons item items ih =>
    obtain ⟨secret, clock⟩ := item
    simp only [reviewSecrets, ExportMetrics_cases]
    cases hget : getMetricsFromJWT codec clock (tokenOf p secret) with
    | panic q => exact ⟨rfl, h⟩
    | ret a =>
      obtain ⟨metric, err⟩ := a
      cases err with
      | some e => exact ih _ _ _ _ (Registry.sameGauges_IncErrorTotal r1 r2 h)
      | none => exact ih _ _ _ _ (setAllGauges_sameGauges _ _ r1 r2 h)

/-- A secret whose `ExportMetrics` call returns an error is counted once and leaves the
gauge vectors as they were; the loop goes on with the next secret. -/
theorem reviewSecrets_error_step (p : Checker) (codec : Codec) (secret : Secret)
    (clock : Clock) (rest : List (Secret × Clock)) (reg : Registry) (calls : List Call)
    (metric : JWTMetric) (err : ExportError)
    (hget : getMetricsFromJWT codec clock (tokenOf p secret) = .ret (metric, some err)) :
    reviewSecrets p codec ((secret, clock) :: rest) reg calls =
      reviewSecrets p codec rest reg.IncErrorTotal (calls ++ [callOf p secret]) := by
  simp only [reviewSecrets, ExportMetrics_cases, hget]

/-- A secret whose `ExportMetrics` call succeeds has its samples written; the loop goes
on with the next secret. -/
theorem reviewSecrets_ok_step (p : Checker) (codec : Codec) (secret : Secret)
    (clock : Clock) (rest : List (Secret × Clock)) (reg : Registry) (calls : List Call)
    (metric : JWTMetric)
    (hget : getMetricsFromJWT codec clock (tokenOf p secret) = .ret (metric, none)) :
    reviewSecrets p codec ((secret, clock) :: rest) reg calls =
      reviewSecrets p codec rest
        (setAllGauges (normalize metric)
          (labelTuples (normalize metric) (secretKeyOf p secret) secret.Name secret.Namespace)
          reg) (calls ++ [callOf p secret]) := by
  simp only [reviewSecrets, ExportMetrics_cases, hget]

/-- A secret whose `ExportMetrics` call panics ends the loop: no later secret is
reviewed. -/
theorem reviewSecrets_panic_step (p : Checker) (codec : Codec) (secret : Secret)
    (clock : Clock) (rest : List (Secret × Clock)) (reg : Registry) (calls : List Call)
    (q : Panic) (hget : getMetricsFromJWT codec clock (tokenOf p secret) = .panic q) :
    reviewSecrets p codec ((secret, clock) :: rest) reg calls =
      { reg := reg, calls := calls ++ [callOf p secret], panicked := some q } := by
  simp only [reviewSecrets, ExportMetrics_cases, hget]

/-- When no `ExportMetrics` call panics, the loop over the secrets ends without panic,
the error counter grows by the number of secrets whose call returned an error, and the
gauge vectors are those obtained from the other secrets alone, in the same order. -/
theorem reviewSecrets_error_isolation (p : Checker) (codec : Codec)
    (items : List (Secret × Clock)) (reg : Registry) (calls : List Call)
    (hnopanic : ∀ item ∈ items, panics p codec item = false) :
    (reviewSecrets p codec items reg calls).panicked = none ∧
    (reviewSecrets p codec items reg calls).reg.ErrorTotal =
      reg.ErrorTotal + (items.filter (returnsError p codec)).length ∧
    (reviewSecrets p codec items reg calls).reg.sameGauges
      (reviewSecrets p codec (items.filter fun item => !returnsError p codec item) reg
        calls).reg := by
  induction items generalizing reg calls with
  | nil => exact ⟨rfl, rfl, Registry.sameGauges_refl _⟩
  | cons item items ih =>
    obtain ⟨secret, clock⟩ := item
    have hrest : ∀ item ∈ items, panics p codec item = false :=
      fun item hitem => hnopanic item (List.mem_cons_of_mem _ hitem)
    have hhead := hnopanic (secret, clock) (List.mem_cons_self _ _)
    cases hget : getMetricsFromJWT codec clock (tokenOf p secret) with
    | panic q => simp [panics, hget] at hhead
    | ret a =>
      obtain ⟨metric, err⟩ := a
      cases err with
      | some e =>
        have herr : returnsError p codec (secret, clock) = true := by
          simp [returnsError, hget]
        obtain ⟨h1, h2, h3⟩ := ih reg.IncErrorTotal (calls ++ [callOf p secret]) hrest
        rw [reviewSecrets_error_step p codec secret clock items reg calls metric e hget]
        refine ⟨h1, ?_, ?_⟩
        · rw [h2, List.filter_cons_of_pos herr]
          simp only [Registry.IncErrorTotal, List.length_cons]
          omega
        · rw [List.filter_cons_of_neg (by simp [herr])]
          exact Registry.sameGauges_trans _ _ _ h3
            (reviewSecrets_gauges p codec _ reg.IncErrorTotal reg _ calls
              ⟨rfl, rfl, rfl, rfl⟩).2
      | none =>
        have herr : returnsError p codec (secret, clock) = false := by
          simp [returnsError, hget]
        obtain ⟨h1, h2, h3⟩ := ih (setAllGauges (normalize metric)
          (labelTuples (normalize metric) (secretKeyOf p secret) secret.Name secret.Namespace)
          reg) (calls ++ [callOf p secret]) hrest
        rw [reviewSecrets_ok_step p codec secret clock items reg calls metric hget]
        refine ⟨h1, ?_, ?_⟩
        · rw [h2, List.filter_cons_of_neg (by simp [herr])]
          rfl
        · rw [List.filter_cons_of_pos (by simp [herr]),
            reviewSecrets_ok_step p codec secret clock _ reg calls metric hget]
          exact h3

theorem mem_withClocks (clocks : Nat → Clock) (start : Nat) (secrets : List Secret)
    (item : Secret × Clock) (hitem : item ∈ withClocks clocks start secrets) :
    item.1 ∈ secrets := by
  rw [← withClocks_map_fst clocks start secrets]
  exact List.mem_map_of_mem _ hitem

/-! ## Claims about the poll cycle -/

set_option maxRecDepth 100000 in
/-- C9. A poll cycle that finds a secret whose annotation names a missing data key, and
after it a secret with a valid token, does not count an error and go on: the
`ExportMetrics` call for the first secret panics, the cycle ends there with the error
counter unchanged and no call made for the second secret, whose samples are therefore
missing, whereas the same cycle without the first secret writes four label tuples to
each gauge vector. -/
theorem C9_pollCycle_missing_key_aborts :
    pollCycle sampleChecker sampleCodec (clusterWith [brokenSecret, validSecret])
        (fun _ => sampleClock) emptyRegistry =
      { reg := emptyRegistry
        calls := [.ResetMetrics, .ExportMetrics "" "missing" "broken" "default"]
        panicked := some .nilDereference } ∧
    (pollCycle sampleChecker sampleCodec (clusterWith [validSecret])
        (fun _ => sampleClock) emptyRegistry).panicked = none ∧
    (pollCycle sampleChecker sampleCodec (clusterWith [validSecret])
        (fun _ => sampleClock) emptyRegistry).reg.gauges.map
          (fun g => g.labels.length) = [4, 4, 4, 4] := by
  refine ⟨?_, ?_, ?_⟩ <;> decide!

/-- C10. In every poll cycle `ResetMetrics` is the first call on the exporter and the
only `ResetMetrics` call, every later call being an `ExportMetrics` call for the secrets
found, in order; `ResetMetrics` leaves all four gauge vectors without samples; the
calls, the panic and the gauge samples of the cycle are the same from whatever registry
the cycle starts; and every label tuple present at the end names a secret found in this
cycle. -/
theorem C10_pollCycle_reset (p : Checker) (codec : Codec) (cluster : Cluster)
    (clocks : Nat → Clock) (reg other : Registry) :
    (∃ n, (pollCycle p codec cluster clocks reg).calls =
      Call.ResetMetrics :: ((discover p cluster (ResetMetrics reg)).1.take n).map (callOf p)) ∧
    (pollCycle p codec cluster clocks reg).calls.count Call.ResetMetrics = 1 ∧
    (∀ sel ∈ gaugeSelectors, (sel (ResetMetrics reg)).samples = []) ∧
    ((pollCycle p codec cluster clocks reg).calls =
        (pollCycle p codec cluster clocks other).calls ∧
      (pollCycle p codec cluster clocks reg).panicked =
        (pollCycle p codec cluster clocks other).panicked ∧
      ∀ sel ∈ gaugeSelectors, sel (pollCycle p codec cluster clocks reg).reg =
        sel (pollCycle p codec cluster clocks other).reg) ∧
    (∀ sel ∈ gaugeSelectors, ∀ l ∈ (sel (pollCycle p codec cluster clocks reg).reg).labels,
      ∃ secret ∈ (discover p cluster (ResetMetrics reg)).1,
        l.secret_name = secret.Name ∧ l.secret_namespace = secret.Namespace ∧
          l.secret_key = secretKeyOf p secret) := by
  have hcalls : ∃ n, (pollCycle p codec cluster clocks reg).calls =
      Call.ResetMetrics ::
        ((discover p cluster (ResetMetrics reg)).1.take n).map (callOf p) := by
    obtain ⟨n, hn⟩ := reviewSecrets_calls p codec
      (withClocks clocks 0 (discover p cluster (ResetMetrics reg)).1)
      (discover p cluster (ResetMetrics reg)).2 [Call.ResetMetrics]
    refine ⟨n, ?_⟩
    simp only [pollCycle]
    have hfst : (List.take n (withClocks clocks 0
        (discover p cluster (ResetMetrics reg)).1)).map Prod.fst =
        List.take n (discover p cluster (ResetMetrics reg)).1 := by
      rw [List.map_take, withClocks_map_fst]
    rw [hn, ← hfst, List.map_map]
    rfl
  have hreset : ∀ sel ∈ gaugeSelectors, (sel (ResetMetrics reg)).samples = [] := by
    intro sel hsel
    simp only [gaugeSelectors, List.mem_cons, List.mem_singleton, List.not_mem_nil,
      or_false] at hsel
    rcases hsel with rfl | rfl | rfl | rfl <;> rfl
  refine ⟨hcalls, ?_, hreset, ?_, ?_⟩
  · obtain ⟨n, hn⟩ := hcalls
    rw [hn, List.count_cons_self, List.count_eq_zero.mpr]
    intro hmem
    obtain ⟨secret, _, hsecret⟩ := List.mem_map.mp hmem
    simp [callOf] at hsecret
  · have hstart : (ResetMetrics reg).sameGauges (ResetMetrics other) := ⟨rfl, rfl, rfl, rfl⟩
    obtain ⟨hfound, hregs⟩ := discover_sameGauges p cluster _ _ hstart
    obtain ⟨h1, h2, h3⟩ := reviewSecrets_sameGauges p codec
      (withClocks clocks 0 (discover p cluster (ResetMetrics reg)).1)
      (discover p cluster (ResetMetrics reg)).2 (discover p cluster (ResetMetrics other)).2
      [Call.ResetMetrics] hregs
    simp only [pollCycle]
    rw [← hfound]
    exact ⟨h1, h2, fun sel hsel => Registry.sameGauges_sel _ _ h3 sel hsel⟩
  · have hempty : (discover p cluster (ResetMetrics reg)).2.labelsFrom p
        (discover p cluster (ResetMetrics reg)).1 := by
      intro sel hsel l hl
      have hsame := Registry.sameGauges_sel _ _
        (discover_keeps_gauges p cluster (ResetMetrics reg)) sel hsel
      unfold GaugeVec.labels at hl
      rw [hsame, hreset sel hsel] at hl
      simp at hl
    exact reviewSecrets_labelsFrom p codec (discover p cluster (ResetMetrics reg)).1
      (withClocks clocks 0 (discover p cluster (ResetMetrics reg)).1)
      (discover p cluster (ResetMetrics reg)).2 [Call.ResetMetrics]
      (fun item hitem => mem_withClocks clocks 0 _ item hitem) hempty

end JwtExporter
